import Mathlib

/-!
Verification of the in-place log redaction engine of `logcleaner.py`.

The program opens a decompressed log file, memory-maps it, scans it line by
line, redacts credit-card and SSN tokens in place by overwriting the matched
byte spans with fixed-width masks, flushes after each redacted line, and
returns per-file audit counters.  Files are bytes; under the program's
Python-2 semantics a mapped file is a string of one-byte characters, which we
embed as `List Char`.  Fixed-shape regular expressions (`cc_pattern`,
`ssn_pattern`) become template matchers; `re.search` becomes a leftmost
template search; mmap slice assignment becomes a length-checked splice that
fails (as CPython's mmap does) when the replacement length differs from the
span length.
-/

namespace Logcleaner

/-- One position of a fixed-shape token template: a literal character, or an
ASCII digit class (the `\d` of the source regexes). -/
inductive PatChar where
  | lit (c : Char)
  | dig
deriving DecidableEq

/-- Whether one template position accepts one character. -/
def patMatches : PatChar → Char → Bool
  | .lit c, d => decide (d = c)
  | .dig, d => d.isDigit

/-- Whether a template matches at the head of a character list (the template
must fit entirely inside the list). -/
def matchesPref : List PatChar → List Char → Bool
  | [], _ => true
  | _ :: _, [] => false
  | p :: ps, c :: cs => patMatches p c && matchesPref ps cs

/-- Leftmost search of a template in a character list, returning the start
index of the first match, as `re.search` does for these fixed-width
patterns. -/
def searchTmpl (tmpl : List PatChar) : List Char → Option Nat
  | [] => if matchesPref tmpl [] then some 0 else none
  | c :: cs =>
    if matchesPref tmpl (c :: cs) then some 0
    else (searchTmpl tmpl cs).map (· + 1)

/-- `n` consecutive digit positions. -/
def digs (n : Nat) : List PatChar := List.replicate n .dig

/-- Template of `cc_pattern` (line 45 of the source):
the literal shape CC="dddd-dddd-dddd-dddd", 24 characters. -/
def ccTemplate : List PatChar :=
  [.lit 'C', .lit 'C', .lit '=', .lit '"'] ++ digs 4 ++ [.lit '-'] ++ digs 4 ++
    [.lit '-'] ++ digs 4 ++ [.lit '-'] ++ digs 4 ++ [.lit '"']

/-- Template of `ssn_pattern` (line 47 of the source):
the literal shape SSN="ddd-dd-dddd", 17 characters. -/
def ssnTemplate : List PatChar :=
  [.lit 'S', .lit 'S', .lit 'N', .lit '=', .lit '"'] ++ digs 3 ++ [.lit '-'] ++
    digs 2 ++ [.lit '-'] ++ digs 4 ++ [.lit '"']

/-- Embedding of `re.search(pattern, line)` returning `span(0)` of the match
object: a half-open index pair, line-relative. -/
def reSearch (tmpl : List PatChar) (line : List Char) : Option (Nat × Nat) :=
  (searchTmpl tmpl line).map (fun i => (i, i + tmpl.length))

/-- CC_REPLACE_STR of the source (line 49). -/
def CC_REPLACE_STR : List Char := "CC=\"xxxx-xxxx-xxxx-xxxx\"".toList

/-- SSN_REPLACE_STR of the source (line 50). -/
def SSN_REPLACE_STR : List Char := "SSN=\"xxx-xx-xxxx\"".toList

/-- Failure taxonomy of a pass: a replacement whose length differs from the
matched span (CPython raises IndexError from mmap slice assignment; the
spec names this LayoutViolation), or an I/O failure. -/
inductive Err where
  | layoutViolation
  | ioFailure
deriving DecidableEq

/-- Embedding of mmap slice assignment `mm[a:b] = v` (lines 132 and 140 of
the source).  Slice bounds are clamped as Python clamps them; if the value's
length differs from the span's length the operation fails without writing,
exactly as CPython's mmap raises IndexError for a wrong-size slice
assignment. -/
def sliceAssign (s : List Char) (a b : Nat) (v : List Char) :
    Except Err (List Char) :=
  let a1 := min a s.length
  let b1 := max a1 (min b s.length)
  if v.length = b1 - a1 then .ok (s.take a1 ++ v ++ s.drop b1)
  else .error .layoutViolation

/-- Number of bytes `mm.readline` consumes from the head of a buffer suffix:
up to and including the first newline, or the whole suffix. -/
def lineLen : List Char → Nat
  | [] => 0
  | c :: cs => if c = '\n' then 1 else lineLen cs + 1

/-- Offset just past the line that starts at offset `i`: the value of
`mm.tell()` after `mm.readline()` (line 126 of the source). -/
def lineEnd (s : List Char) (i : Nat) : Nat := i + lineLen (s.drop i)

/-- The byte span `[a, b)` of a buffer, as `mm[a:b]` reads it. -/
def slice (s : List Char) (a b : Nat) : List Char := (s.drop a).take (b - a)

/-- The audit counters of `redact_data` (lines 117-120 and 159-163):
lines redacted, the running `line_count`, credit-card redactions and SSN
redactions.  Wall-clock time is omitted. -/
structure AuditMetadata where
  linesRedacted : Nat
  lineCount : Nat
  ccRedactions : Nat
  ssnRedactions : Nat
deriving DecidableEq, Repr

/-- Body of one iteration of the scan loop of `redact_data` (lines 128-141):
search the line for a credit-card token and overwrite it with its mask; if a
credit card was redacted, re-read the line span from the live buffer
(line 134); then search for an SSN token and overwrite it.  Returns the new
buffer and which classes matched. -/
def stepLine (buf : List Char) (cur nxt : Nat) :
    Except Err (List Char × Bool × Bool) :=
  let line := slice buf cur nxt
  match reSearch ccTemplate line with
  | some (ms, me) =>
    match sliceAssign buf (cur + ms) (cur + me) CC_REPLACE_STR with
    | .error e => .error e
    | .ok buf1 =>
      let line1 := slice buf1 cur nxt
      match reSearch ssnTemplate line1 with
      | some (t1, t2) =>
        match sliceAssign buf1 (cur + t1) (cur + t2) SSN_REPLACE_STR with
        | .error e => .error e
        | .ok buf2 => .ok (buf2, true, true)
      | none => .ok (buf1, true, false)
  | none =>
    match reSearch ssnTemplate line with
    | some (t1, t2) =>
      match sliceAssign buf (cur + t1) (cur + t2) SSN_REPLACE_STR with
      | .error e => .error e
      | .ok buf1 => .ok (buf1, false, true)
    | none => .ok (buf, false, false)

/-- The scan loop of `redact_data` (lines 125-148), fuel-indexed: while the
cursor has not reached end of view, read one line, process it, update the
counters, record a flush of the whole mapping (`mm.flush()`, line 145) when
either class matched, and continue past the line.  A flush event is the
(offset, size) range the call commits; the no-argument `mm.flush()` commits
the entire mapping. -/
def redactLoopF : Nat → List Char → Nat → AuditMetadata → List (Nat × Nat) →
    Except Err (List Char × AuditMetadata × List (Nat × Nat))
  | 0, buf, _, res, fl => .ok (buf, res, fl)
  | fuel + 1, buf, i, res, fl =>
    if i < buf.length then
      match stepLine buf i (lineEnd buf i) with
      | .error e => .error e
      | .ok (buf1, ccb, ssnb) =>
        redactLoopF fuel buf1 (lineEnd buf i)
          ⟨res.linesRedacted + (if ccb || ssnb then 1 else 0),
           res.lineCount + 1,
           res.ccRedactions + (if ccb then 1 else 0),
           res.ssnRedactions + (if ssnb then 1 else 0)⟩
          (if ccb || ssnb then fl ++ [(0, buf1.length)] else fl)
    else .ok (buf, res, fl)

/-- Initial counters of `redact_data`: note `line_count` starts at 1
(line 120 of the source). -/
def initMeta : AuditMetadata := ⟨0, 1, 0, 0⟩

/-- Embedding of `redact_data` (lines 87-164): run the scan loop over the
whole mapped buffer from offset 0.  The fuel `buf.length + 1` strictly
dominates the number of loop iterations, since every iteration advances the
cursor by at least one byte. -/
def redact_data (buf : List Char) :
    Except Err (List Char × AuditMetadata × List (Nat × Nat)) :=
  redactLoopF (buf.length + 1) buf 0 initMeta []

/-- The (start, end) offset pairs of the lines of a buffer, from offset `i`,
fuel-indexed like the loop. -/
def segsF : Nat → List Char → Nat → List (Nat × Nat)
  | 0, _, _ => []
  | fuel + 1, s, i =>
    if i < s.length then (i, lineEnd s i) :: segsF fuel s (lineEnd s i)
    else []

/-- The line spans of a buffer. -/
def segs (s : List Char) : List (Nat × Nat) := segsF (s.length + 1) s 0

/-- The lines of a buffer, as `readline` would deliver them. -/
def linesOf (s : List Char) : List (List Char) :=
  (segs s).map (fun ab => slice s ab.1 ab.2)

/-- Number of lines of a buffer. -/
def countLines (s : List Char) : Nat := (segs s).length

/-- Whether a line carries both a credit-card and an SSN token. -/
def hasBoth (l : List Char) : Bool :=
  (reSearch ccTemplate l).isSome && (reSearch ssnTemplate l).isSome

/-- Whether byte offset `k` of the buffer lies inside a matched token span
of the line `[cur, nxt)`: the span of the credit-card match or of the SSN
match of the line as first read.  These are exactly the byte ranges the pass
overwrites on that line (the SSN overwrite lands on the same span after the
credit-card overwrite, which is proved separately). -/
def inTokenSpan (buf : List Char) (cur nxt k : Nat) : Prop :=
  (∃ ms me, reSearch ccTemplate (slice buf cur nxt) = some (ms, me) ∧
    cur + ms ≤ k ∧ k < cur + me) ∨
  (∃ t1 t2, reSearch ssnTemplate (slice buf cur nxt) = some (t1, t2) ∧
    cur + t1 ≤ k ∧ k < cur + t2)

/-- Number of scan-loop iterations, from cursor `i`, in which both classes
matched (mirrors the loop including its in-place mutation). -/
def bothLinesF : Nat → List Char → Nat → Nat
  | 0, _, _ => 0
  | fuel + 1, buf, i =>
    if i < buf.length then
      match stepLine buf i (lineEnd buf i) with
      | .error _ => 0
      | .ok (buf1, ccb, ssnb) =>
        (if ccb && ssnb then 1 else 0) + bothLinesF fuel buf1 (lineEnd buf i)
    else 0

/-- Number of lines of a full pass in which both classes matched. -/
def bothLines (s : List Char) : Nat := bothLinesF (s.length + 1) s 0

/-- A template matches at most one position of a line (the source's
one-customer-record-per-line assumption, header assumption 5). -/
def atMostOneB (tmpl : List PatChar) (l : List Char) : Bool :=
  ((List.range (l.length + 1)).filter
    (fun j => matchesPref tmpl (l.drop j))).length ≤ 1

/-- Every line of the buffer carries at most one credit-card token and at
most one SSN token. -/
def oncePerLineB (s : List Char) : Bool :=
  (linesOf s).all (fun l => atMostOneB ccTemplate l && atMostOneB ssnTemplate l)

/-- Pointwise relation between a buffer and the outcome of overwriting
matched token spans with the fixed masks: every byte is either unchanged or
was a digit that is now the mask filler x. -/
def DigX (s t : List Char) : Prop :=
  s.length = t.length ∧
    ∀ k, t.getD k ' ' = s.getD k ' ' ∨
      ((s.getD k ' ').isDigit = true ∧ t.getD k ' ' = 'x')

/-- The buffer contains no credit-card and no SSN token anywhere. -/
def noTokens (s : List Char) : Prop :=
  ∀ j, matchesPref ccTemplate (s.drop j) = false ∧
    matchesPref ssnTemplate (s.drop j) = false

/-- Embedding of the result-collection loop of `clean_files`
(lines 65-73): given the outcome each worker's pass produced, call
`job.get()` on the jobs in submission order.  `get` re-raises a worker's
exception in the coordinator, which propagates it out at once; the returned
number counts how many jobs had their outcome collected before
`clean_files` exited. -/
def cleanFilesRun : List (Except Err AuditMetadata) → Except Err Unit × Nat
  | [] => (.ok (), 0)
  | .ok _ :: rest =>
    let r := cleanFilesRun rest
    (r.1, r.2 + 1)
  | .error e :: _ => (.error e, 1)

/-- Index of the last occurrence of a character in a list. -/
def lastIdxOf (c : Char) : List Char → Option Nat
  | [] => none
  | x :: xs =>
    match lastIdxOf c xs with
    | some i => some (i + 1)
    | none => if x = c then some 0 else none

/-- Embedding of `os.path.splitext` (posixpath): split off the extension
beginning at the last dot of the path, provided that dot lies after the last
path separator and some earlier character of the basename is not a dot
(so a leading-dot filename has no extension). -/
def splitext (p : List Char) : List Char × List Char :=
  let sIdx : Int := match lastIdxOf '/' p with | some i => (i : Int) | none => -1
  let dIdx : Int := match lastIdxOf '.' p with | some i => (i : Int) | none => -1
  if sIdx < dIdx then
    let d := dIdx.toNat
    if (List.range d).any
        (fun k => decide (sIdx < (k : Int)) && decide (p.getD k ' ' ≠ '.')) then
      (p.take d, p.drop d)
    else (p, [])
  else (p, [])

/-- Path `decompress_file` (lines 166-177) writes the decompressed copy to:
the input path with its extension removed. -/
def decompressName (p : List Char) : List Char := (splitext p).1

/-- Path `compress_file` (lines 179-185) writes the recompressed archive to:
gzip with suffix option `.redacted.gz` appends that suffix to the
decompressed file's path. -/
def compressName (p : List Char) : List Char := p ++ ".redacted.gz".toList

/-- Helper for the idempotence analysis: run `redact_data`, then run it again
on the first pass's output, and return the second pass's counters. -/
def secondPass (buf : List Char) : Option AuditMetadata :=
  match redact_data buf with
  | .ok (buf1, _, _) =>
    match redact_data buf1 with
    | .ok (_, res2, _) => some res2
    | .error _ => none
  | .error _ => none

/-! ### Indexing helpers -/

lemma gd_default {α : Type} (d : α) :
    ∀ (l : List α) (k : Nat), l.length ≤ k → l.getD k d = d := by
  intro l
  induction l with
  | nil => intro k _; simp
  | cons c cs ih =>
    intro k hk
    cases k with
    | zero => simp at hk
    | succ k => simpa using ih k (by simpa using hk)

lemma gd_drop {α : Type} (d : α) :
    ∀ (a : Nat) (l : List α) (k : Nat), (l.drop a).getD k d = l.getD (a + k) d := by
  intro a
  induction a with
  | zero => intro l k; simp
  | succ a ih =>
    intro l k
    cases l with
    | nil => simp
    | cons c cs =>
      have h1 : a + 1 + k = (a + k) + 1 := by omega
      simp [h1, ih cs k]

lemma gd_take {α : Type} (d : α) :
    ∀ (n : Nat) (l : List α) (k : Nat),
      (l.take n).getD k d = if k < n then l.getD k d else d := by
  intro n
  induction n with
  | zero => intro l k; simp
  | succ n ih =>
    intro l k
    cases l with
    | nil => simp
    | cons c cs =>
      cases k with
      | zero => simp
      | succ k => simpa using ih cs k

lemma gd_append {α : Type} (d : α) :
    ∀ (l1 l2 : List α) (k : Nat),
      (l1 ++ l2).getD k d =
        if k < l1.length then l1.getD k d else l2.getD (k - l1.length) d := by
  intro l1
  induction l1 with
  | nil => intro l2 k; simp
  | cons c cs ih =>
    intro l2 k
    cases k with
    | zero => simp
    | succ k =>
      have := ih l2 k
      simp only [List.cons_append, List.getD_cons_succ, List.length_cons, this]
      by_cases h : k < cs.length
      · rw [if_pos h, if_pos (by omega)]
      · rw [if_neg h, if_neg (by omega)]
        congr 1
        omega

lemma gd_ext {α : Type} (d : α) :
    ∀ (s t : List α), s.length = t.length →
      (∀ k, k < s.length → s.getD k d = t.getD k d) → s = t := by
  intro s
  induction s with
  | nil =>
    intro t hlen _
    cases t with
    | nil => rfl
    | cons c cs => simp at hlen
  | cons c cs ih =>
    intro t hlen hc
    cases t with
    | nil => simp at hlen
    | cons b bs =>
      have h0 : c = b := by simpa using hc 0 (by simp)
      have htl : cs = bs := by
        refine ih bs (by simpa using hlen) ?_
        intro k hk
        simpa using hc (k + 1) (by simpa using Nat.succ_lt_succ hk)
      rw [h0, htl]

lemma gd_mem {α : Type} (d : α) :
    ∀ (l : List α) (k : Nat), k < l.length → l.getD k d ∈ l := by
  intro l
  induction l with
  | nil => intro k hk; simp at hk
  | cons c cs ih =>
    intro k hk
    cases k with
    | zero => simp
    | succ k =>
      have := ih k (by simpa using hk)
      exact List.mem_cons_of_mem c this

lemma slice_getD (s : List Char) (a b k : Nat) :
    (slice s a b).getD k ' ' =
      if k < b - a then s.getD (a + k) ' ' else ' ' := by
  unfold slice
  rw [gd_take, gd_drop]

lemma slice_length (s : List Char) (a b : Nat) (hb : b ≤ s.length) (hab : a ≤ b) :
    (slice s a b).length = b - a := by
  unfold slice
  simp only [List.length_take, List.length_drop]
  omega

/-! ### Matcher lemmas -/

lemma mp_iff (tmpl : List PatChar) :
    ∀ (l : List Char),
      matchesPref tmpl l = true ↔
        tmpl.length ≤ l.length ∧
          ∀ j, j < tmpl.length →
            patMatches (tmpl.getD j .dig) (l.getD j ' ') = true := by
  induction tmpl with
  | nil => intro l; simp [matchesPref]
  | cons p ps ih =>
    intro l
    cases l with
    | nil =>
      simp [matchesPref]
    | cons c cs =>
      simp only [matchesPref, Bool.and_eq_true, ih cs, List.length_cons]
      constructor
      · rintro ⟨hp, hlen, hall⟩
        refine ⟨by omega, ?_⟩
        intro j hj
        cases j with
        | zero => simpa using hp
        | succ j => simpa using hall j (by omega)
      · rintro ⟨hlen, hall⟩
        refine ⟨by simpa using hall 0 (by omega), by omega, ?_⟩
        intro j hj
        simpa using hall (j + 1) (by omega)

lemma mp_of_congr (tmpl : List PatChar) (s t : List Char)
    (hm : matchesPref tmpl s = true) (hlen : tmpl.length ≤ t.length)
    (hc : ∀ k, k < tmpl.length → t.getD k ' ' = s.getD k ' ') :
    matchesPref tmpl t = true := by
  rw [mp_iff] at hm ⊢
  refine ⟨hlen, ?_⟩
  intro j hj
  rw [hc j hj]
  exact hm.2 j hj

lemma mp_take (tmpl : List PatChar) (l : List Char) (m : Nat)
    (h : matchesPref tmpl (l.take m) = true) : matchesPref tmpl l = true := by
  have hlen := ((mp_iff tmpl (l.take m)).mp h).1
  simp only [List.length_take] at hlen
  refine mp_of_congr tmpl (l.take m) l h (by omega) ?_
  intro k hk
  rw [gd_take, if_pos (by omega)]

lemma mp_take_of (tmpl : List PatChar) (l : List Char) (m : Nat)
    (h : matchesPref tmpl l = true) (hm : tmpl.length ≤ m) :
    matchesPref tmpl (l.take m) = true := by
  rw [mp_iff] at h
  refine mp_of_congr tmpl l (l.take m) (by rw [mp_iff]; exact h) ?_ ?_
  · simp only [List.length_take]
    omega
  · intro k hk
    rw [gd_take, if_pos (by omega)]

/-! ### Search lemmas -/

lemma st_some (tmpl : List PatChar) :
    ∀ (s : List Char) (i : Nat), searchTmpl tmpl s = some i →
      matchesPref tmpl (s.drop i) = true ∧
        ∀ j, j < i → matchesPref tmpl (s.drop j) = false := by
  intro s
  induction s with
  | nil =>
    intro i h
    unfold searchTmpl at h
    split at h
    · rename_i hm
      cases h
      exact ⟨by simpa using hm, by omega⟩
    · cases h
  | cons c cs ih =>
    intro i h
    rw [searchTmpl] at h
    split at h
    · rename_i hm
      cases h
      exact ⟨by simpa using hm, by omega⟩
    · rename_i hm
      rw [Option.map_eq_some'] at h
      obtain ⟨i0, hi0, hieq⟩ := h
      obtain ⟨h1, h2⟩ := ih i0 hi0
      subst hieq
      constructor
      · simpa using h1
      · intro j hj
        cases j with
        | zero => simpa using Bool.of_not_eq_true hm
        | succ j => simpa using h2 j (by omega)

lemma st_none (tmpl : List PatChar) :
    ∀ (s : List Char), searchTmpl tmpl s = none →
      ∀ j, matchesPref tmpl (s.drop j) = false := by
  intro s
  induction s with
  | nil =>
    intro h j
    unfold searchTmpl at h
    split at h
    · cases h
    · rename_i hm
      simpa using Bool.of_not_eq_true hm
  | cons c cs ih =>
    intro h j
    rw [searchTmpl] at h
    split at h
    · cases h
    · rename_i hm
      rw [Option.map_eq_none'] at h
      cases j with
      | zero => simpa using Bool.of_not_eq_true hm
      | succ j => simpa using ih h j

lemma st_complete (tmpl : List PatChar) (s : List Char) (i : Nat)
    (h : matchesPref tmpl (s.drop i) = true) :
    ∃ k, searchTmpl tmpl s = some k := by
  cases hs : searchTmpl tmpl s with
  | some k => exact ⟨k, rfl⟩
  | none =>
    have := st_none tmpl s hs i
    rw [h] at this
    cases this

lemma st_eq_some_of (tmpl : List PatChar) (s : List Char) (i : Nat)
    (h : matchesPref tmpl (s.drop i) = true)
    (hmin : ∀ j, j < i → matchesPref tmpl (s.drop j) = false) :
    searchTmpl tmpl s = some i := by
  obtain ⟨k, hk⟩ := st_complete tmpl s i h
  obtain ⟨hk1, hk2⟩ := st_some tmpl s k hk
  have hki : ¬ i < k := by
    intro hlt
    have := hk2 i hlt
    rw [h] at this
    cases this
  have hik : ¬ k < i := by
    intro hlt
    have := hmin k hlt
    rw [hk1] at this
    cases this
  have : k = i := by omega
  rw [hk, this]

/-! ### Concrete template facts -/

lemma ccT_len : ccTemplate.length = 24 := rfl

lemma ssnT_len : ssnTemplate.length = 17 := rfl

lemma ccMask_len : CC_REPLACE_STR.length = 24 := rfl

lemma ssnMask_len : SSN_REPLACE_STR.length = 17 := rfl

lemma cc_no_char_S : ∀ p ∈ ccTemplate, patMatches p 'S' = false := by decide

lemma ssn_no_char_C : ∀ p ∈ ssnTemplate, patMatches p 'C' = false := by decide

lemma cc_no_char_nl : ∀ p ∈ ccTemplate, patMatches p '\n' = false := by decide

lemma ssn_no_char_nl : ∀ p ∈ ssnTemplate, patMatches p '\n' = false := by decide

lemma cc_no_xlit : ∀ p ∈ ccTemplate, p ≠ .lit 'x' := by decide

lemma ssn_no_xlit : ∀ p ∈ ssnTemplate, p ≠ .lit 'x' := by decide

lemma cc_mask_fit :
    ∀ j, j < 24 →
      ccTemplate.getD j .dig = .lit (CC_REPLACE_STR.getD j ' ') ∨
        (ccTemplate.getD j .dig = .dig ∧ CC_REPLACE_STR.getD j ' ' = 'x') := by
  decide

lemma ssn_mask_fit :
    ∀ j, j < 17 →
      ssnTemplate.getD j .dig = .lit (SSN_REPLACE_STR.getD j ' ') ∨
        (ssnTemplate.getD j .dig = .dig ∧ SSN_REPLACE_STR.getD j ' ' = 'x') := by
  decide

lemma cc_slot0 : ccTemplate.getD 0 .dig = .lit 'C' := by decide

lemma ssn_slot0 : ssnTemplate.getD 0 .dig = .lit 'S' := by decide

lemma cc_slot4 : ccTemplate.getD 4 .dig = .dig := by decide

lemma ssn_slot5 : ssnTemplate.getD 5 .dig = .dig := by decide

lemma ccMask_at4 : CC_REPLACE_STR.getD 4 ' ' = 'x' := by decide

lemma ssnMask_at5 : SSN_REPLACE_STR.getD 5 ' ' = 'x' := by decide

lemma x_not_digit : Char.isDigit 'x' = false := by decide

lemma nl_not_digit : Char.isDigit '\n' = false := by decide

lemma mp_cc_nil : matchesPref ccTemplate [] = false := by decide

lemma mp_ssn_nil : matchesPref ssnTemplate [] = false := by decide

/-! ### Slice assignment lemmas -/

lemma sa_ok (s : List Char) (a b : Nat) (v : List Char) (hab : a ≤ b)
    (hb : b ≤ s.length) (hv : v.length = b - a) :
    sliceAssign s a b v = .ok (s.take a ++ v ++ s.drop b) := by
  simp only [sliceAssign]
  rw [Nat.min_eq_left (hab.trans hb), Nat.min_eq_left hb, Nat.max_eq_right hab,
    if_pos hv]

lemma sa_err (s : List Char) (a b : Nat) (v : List Char) (hab : a ≤ b)
    (hb : b ≤ s.length) (hv : v.length ≠ b - a) :
    sliceAssign s a b v = .error .layoutViolation := by
  simp only [sliceAssign]
  rw [Nat.min_eq_left (hab.trans hb), Nat.min_eq_left hb, Nat.max_eq_right hab,
    if_neg hv]

lemma sa_ok_len (s : List Char) (a b : Nat) (v : List Char) (hab : a ≤ b)
    (hb : b ≤ s.length) (r : List Char)
    (h : sliceAssign s a b v = .ok r) : v.length = b - a ∧ r.length = s.length := by
  have hv : v.length = b - a := by
    by_contra hne
    rw [sa_err s a b v hab hb hne] at h
    cases h
  rw [sa_ok s a b v hab hb hv] at h
  have hr : r = s.take a ++ v ++ s.drop b := by
    cases h
    rfl
  subst hr
  refine ⟨hv, ?_⟩
  simp only [List.length_append, List.length_take, List.length_drop]
  omega

lemma sa_getD (s : List Char) (a b : Nat) (v : List Char) (hab : a ≤ b)
    (hb : b ≤ s.length) (r : List Char)
    (h : sliceAssign s a b v = .ok r) (k : Nat) :
    r.getD k ' ' =
      if k < a then s.getD k ' '
      else if k < b then v.getD (k - a) ' '
      else s.getD k ' ' := by
  obtain ⟨hv, _⟩ := sa_ok_len s a b v hab hb r h
  rw [sa_ok s a b v hab hb hv] at h
  have hr : r = s.take a ++ v ++ s.drop b := by
    cases h
    rfl
  subst hr
  have hta : (s.take a).length = a := by
    simp only [List.length_take]
    omega
  rw [List.append_assoc, gd_append, hta]
  by_cases h1 : k < a
  · rw [if_pos h1, if_pos h1, gd_take, if_pos h1]
  · rw [if_neg h1, if_neg h1, gd_append, hv]
    by_cases h2 : k < b
    · rw [if_pos (by omega), if_pos h2]
    · rw [if_neg (by omega), if_neg h2, gd_drop]
      congr 1
      omega

/-! ### Line structure lemmas -/

lemma lineLen_le : ∀ l : List Char, lineLen l ≤ l.length := by
  intro l
  induction l with
  | nil => simp [lineLen]
  | cons c cs ih =>
    rw [lineLen]
    split
    · simp
    · simpa using ih

lemma lineLen_pos : ∀ l : List Char, l ≠ [] → 1 ≤ lineLen l := by
  intro l hl
  cases l with
  | nil => cases hl rfl
  | cons c cs =>
    rw [lineLen]
    split
    · omega
    · omega

lemma lineLen_last :
    ∀ l : List Char,
      lineLen l = l.length ∨
        (1 ≤ lineLen l ∧ l.getD (lineLen l - 1) ' ' = '\n') := by
  intro l
  induction l with
  | nil => left; rfl
  | cons c cs ih =>
    rw [lineLen]
    split
    · rename_i hc
      right
      exact ⟨by omega, by simpa using hc⟩
    · rcases ih with h | ⟨h1, h2⟩
      · left
        simp [h]
      · right
        refine ⟨by omega, ?_⟩
        have : lineLen cs + 1 - 1 = (lineLen cs - 1) + 1 := by omega
        rw [this, List.getD_cons_succ]
        exact h2

lemma lineLen_congr :
    ∀ (s t : List Char), s.length = t.length →
      (∀ k, k < s.length → ((s.getD k ' ' = '\n') ↔ (t.getD k ' ' = '\n'))) →
      lineLen s = lineLen t := by
  intro s
  induction s with
  | nil =>
    intro t hlen _
    cases t with
    | nil => rfl
    | cons b bs => simp at hlen
  | cons c cs ih =>
    intro t hlen hc
    cases t with
    | nil => simp at hlen
    | cons b bs =>
      have h0 := hc 0 (by simp)
      simp only [List.getD_cons_zero] at h0
      rw [lineLen, lineLen]
      by_cases hcn : c = '\n'
      · rw [if_pos hcn, if_pos (h0.mp hcn)]
      · rw [if_neg hcn, if_neg (fun hb => hcn (h0.mpr hb))]
        have := ih bs (by simpa using hlen) ?_
        · omega
        · intro k hk
          simpa using hc (k + 1) (by simpa using Nat.succ_lt_succ hk)

lemma lineEnd_gt (s : List Char) (i : Nat) (h : i < s.length) :
    i < lineEnd s i := by
  unfold lineEnd
  have hne : s.drop i ≠ [] := by
    apply List.ne_nil_of_length_pos
    simp only [List.length_drop]
    omega
  have := lineLen_pos (s.drop i) hne
  omega

lemma lineEnd_le (s : List Char) (i : Nat) (h : i ≤ s.length) :
    lineEnd s i ≤ s.length := by
  unfold lineEnd
  have := lineLen_le (s.drop i)
  simp only [List.length_drop] at this
  omega

lemma lineEnd_last (s : List Char) (i : Nat) (h : i < s.length) :
    lineEnd s i = s.length ∨ s.getD (lineEnd s i - 1) ' ' = '\n' := by
  rcases lineLen_last (s.drop i) with h1 | ⟨h1, h2⟩
  · left
    unfold lineEnd
    rw [h1]
    simp only [List.length_drop]
    omega
  · right
    unfold lineEnd
    rw [gd_drop] at h2
    have heq : i + (lineLen (s.drop i) - 1) = i + lineLen (s.drop i) - 1 := by omega
    rw [heq] at h2
    exact h2

lemma lineEnd_congr (s t : List Char) (i : Nat) (hlen : t.length = s.length)
    (hc : ∀ k, i ≤ k → t.getD k ' ' = s.getD k ' ') :
    lineEnd t i = lineEnd s i := by
  unfold lineEnd
  have : lineLen (t.drop i) = lineLen (s.drop i) := by
    apply lineLen_congr
    · simp only [List.length_drop]
      omega
    · intro k _
      rw [gd_drop, gd_drop, hc (i + k) (by omega)]
  omega

/-! ### Segment lemmas -/

lemma segsF_fuel :
    ∀ (f1 : Nat) (s : List Char) (i : Nat) (f2 : Nat),
      s.length ≤ i + f1 → s.length ≤ i + f2 → segsF f1 s i = segsF f2 s i := by
  intro f1
  induction f1 with
  | zero =>
    intro s i f2 h1 _
    cases f2 with
    | zero => rfl
    | succ f2 =>
      rw [segsF, segsF, if_neg (by omega)]
  | succ f1 ih =>
    intro s i f2 h1 h2
    cases f2 with
    | zero =>
      rw [segsF, segsF, if_neg (by omega)]
    | succ f2 =>
      rw [segsF, segsF]
      by_cases hi : i < s.length
      · rw [if_pos hi, if_pos hi]
        have hgt := lineEnd_gt s i hi
        rw [ih s (lineEnd s i) f2 (by omega) (by omega)]
      · rw [if_neg hi, if_neg hi]

lemma segsF_mem :
    ∀ (fuel : Nat) (s : List Char) (i : Nat) (ab : Nat × Nat),
      ab ∈ segsF fuel s i →
        i ≤ ab.1 ∧ ab.1 < ab.2 ∧ ab.2 ≤ s.length ∧ ab.2 = lineEnd s ab.1 := by
  intro fuel
  induction fuel with
  | zero =>
    intro s i ab h
    simp [segsF] at h
  | succ fuel ih =>
    intro s i ab h
    rw [segsF] at h
    split at h
    · rename_i hi
      rcases List.mem_cons.mp h with h | h
      · subst h
        exact ⟨le_refl i, lineEnd_gt s i hi, lineEnd_le s i (by omega), rfl⟩
      · obtain ⟨ha, hb, hc, hd⟩ := ih s (lineEnd s i) ab h
        have := lineEnd_gt s i hi
        exact ⟨by omega, hb, hc, hd⟩
    · simp at h

lemma segsF_stable :
    ∀ (fuel : Nat) (s t : List Char) (i : Nat), t.length = s.length →
      (∀ k, i ≤ k → t.getD k ' ' = s.getD k ' ') →
      segsF fuel t i = segsF fuel s i := by
  intro fuel
  induction fuel with
  | zero => intro s t i _ _; rfl
  | succ fuel ih =>
    intro s t i hlen hc
    rw [segsF, segsF, hlen]
    by_cases hi : i < s.length
    · rw [if_pos hi, if_pos hi]
      have hle := lineEnd_congr s t i hlen hc
      rw [hle]
      rw [ih s t (lineEnd s i) hlen ?_]
      intro k hk
      have := lineEnd_gt s i hi
      exact hc k (by omega)
    · rw [if_neg hi, if_neg hi]

lemma slice_stable (s t : List Char) (a b j : Nat) (hlen : t.length = s.length)
    (hc : ∀ k, j ≤ k → t.getD k ' ' = s.getD k ' ') (hj : j ≤ a) :
    slice t a b = slice s a b := by
  apply gd_ext ' '
  · unfold slice
    simp only [List.length_take, List.length_drop]
    omega
  · intro k _
    rw [slice_getD, slice_getD]
    by_cases hk : k < b - a
    · rw [if_pos hk, if_pos hk, hc (a + k) (by omega)]
    · rw [if_neg hk, if_neg hk]

/-! ### Digit-to-mask overwrite relation -/

lemma digx_refl (s : List Char) : DigX s s :=
  ⟨rfl, fun _ => Or.inl rfl⟩

lemma digx_trans (s t u : List Char) (h1 : DigX s t) (h2 : DigX t u) :
    DigX s u := by
  refine ⟨h1.1.trans h2.1, ?_⟩
  intro k
  rcases h2.2 k with hu | ⟨htd, hux⟩
  · rcases h1.2 k with ht | ⟨hsd, htx⟩
    · exact Or.inl (hu.trans ht)
    · exact Or.inr ⟨hsd, hu.trans htx⟩
  · rcases h1.2 k with ht | ⟨hsd, htx⟩
    · rw [ht] at htd
      exact Or.inr ⟨htd, hux⟩
    · rw [htx] at htd
      rw [x_not_digit] at htd
      cases htd

lemma digx_slice (s t : List Char) (a b : Nat) (h : DigX s t) :
    DigX (slice s a b) (slice t a b) := by
  refine ⟨?_, ?_⟩
  · unfold slice
    simp only [List.length_take, List.length_drop, h.1]
  · intro k
    rw [slice_getD, slice_getD]
    by_cases hk : k < b - a
    · rw [if_pos hk, if_pos hk]
      exact h.2 (a + k)
    · rw [if_neg hk, if_neg hk]
      exact Or.inl rfl

lemma digx_drop (s t : List Char) (i : Nat) (h : DigX s t) :
    DigX (s.drop i) (t.drop i) := by
  refine ⟨?_, ?_⟩
  · simp only [List.length_drop, h.1]
  · intro k
    rw [gd_drop, gd_drop]
    exact h.2 (i + k)

lemma digx_write (tmpl : List PatChar) (mask : List Char) (s r : List Char)
    (a : Nat) (hm : matchesPref tmpl (s.drop a) = true)
    (hfit : ∀ j, j < tmpl.length →
      tmpl.getD j .dig = .lit (mask.getD j ' ') ∨
        (tmpl.getD j .dig = .dig ∧ mask.getD j ' ' = 'x'))
    (hts : 0 < tmpl.length)
    (h : sliceAssign s a (a + tmpl.length) mask = .ok r) : DigX s r := by
  have hlen : tmpl.length ≤ s.length - a := by
    have := ((mp_iff tmpl (s.drop a)).mp hm).1
    simpa using this
  have hb : a + tmpl.length ≤ s.length := by omega
  obtain ⟨hv, hrlen⟩ := sa_ok_len s a (a + tmpl.length) mask (by omega) hb r h
  refine ⟨hrlen.symm, ?_⟩
  intro k
  rw [sa_getD s a (a + tmpl.length) mask (by omega) hb r h k]
  by_cases h1 : k < a
  · rw [if_pos h1]
    exact Or.inl rfl
  · rw [if_neg h1]
    by_cases h2 : k < a + tmpl.length
    · rw [if_pos h2]
      have hj : k - a < tmpl.length := by omega
      have hchar := ((mp_iff tmpl (s.drop a)).mp hm).2 (k - a) hj
      rw [gd_drop] at hchar
      have hak : a + (k - a) = k := by omega
      rw [hak] at hchar
      rcases hfit (k - a) hj with hlit | ⟨hdig, hx⟩
      · rw [hlit] at hchar
        simp only [patMatches] at hchar
        exact Or.inl (of_decide_eq_true hchar).symm
      · rw [hdig] at hchar
        simp only [patMatches] at hchar
        exact Or.inr ⟨hchar, hx⟩
    · rw [if_neg h2]
      exact Or.inl rfl

lemma digx_nocreate (tmpl : List PatChar)
    (hnox : ∀ p ∈ tmpl, p ≠ .lit 'x') (s t : List Char) (hd : DigX s t)
    (j : Nat) (hm : matchesPref tmpl (t.drop j) = true) :
    matchesPref tmpl (s.drop j) = true := by
  rw [mp_iff] at hm ⊢
  refine ⟨?_, ?_⟩
  · have h1 := hm.1
    have hst := hd.1
    simp only [List.length_drop] at h1 ⊢
    omega
  · intro k hk
    have hchar := hm.2 k hk
    rw [gd_drop] at hchar ⊢
    rcases hd.2 (j + k) with heq | ⟨hdig, hx⟩
    · rw [heq] at hchar
      exact hchar
    · rw [hx] at hchar
      exfalso
      have hmem : tmpl.getD k .dig ∈ tmpl := gd_mem .dig tmpl k hk
      rcases hslot : tmpl.getD k .dig with c | _
      · rw [hslot] at hchar
        simp only [patMatches] at hchar
        have hxc := of_decide_eq_true hchar
        rw [hslot, ← hxc] at hmem
        exact hnox _ hmem rfl
      · rw [hslot] at hchar
        simp only [patMatches] at hchar
        rw [x_not_digit] at hchar
        cases hchar

/-! ### Token span disjointness -/

lemma cc_ssn_disjoint (l : List Char) (ms t : Nat)
    (hcc : matchesPref ccTemplate (l.drop ms) = true)
    (hssn : matchesPref ssnTemplate (l.drop t) = true) :
    t + 17 ≤ ms ∨ ms + 24 ≤ t := by
  by_contra hcon
  push_neg at hcon
  rw [mp_iff] at hcc hssn
  have hS : l.getD t ' ' = 'S' := by
    have := hssn.2 0 (by rw [ssnT_len]; omega)
    rw [gd_drop, ssn_slot0] at this
    unfold patMatches at this
    have h0 : t + 0 = t := by omega
    rw [h0] at this
    exact of_decide_eq_true this
  have hC : l.getD ms ' ' = 'C' := by
    have := hcc.2 0 (by rw [ccT_len]; omega)
    rw [gd_drop, cc_slot0] at this
    unfold patMatches at this
    have h0 : ms + 0 = ms := by omega
    rw [h0] at this
    exact of_decide_eq_true this
  rcases Nat.lt_or_ge t ms with hlt | hge
  · have hj : ms - t < 17 := by omega
    have hch := hssn.2 (ms - t) (by rw [ssnT_len]; omega)
    rw [gd_drop] at hch
    have heq : t + (ms - t) = ms := by omega
    rw [heq, hC] at hch
    have hmem : ssnTemplate.getD (ms - t) .dig ∈ ssnTemplate :=
      gd_mem .dig ssnTemplate (ms - t) (by rw [ssnT_len]; omega)
    have := ssn_no_char_C _ hmem
    rw [this] at hch
    cases hch
  · have hj : t - ms < 24 := by omega
    have hch := hcc.2 (t - ms) (by rw [ccT_len]; omega)
    rw [gd_drop] at hch
    have heq : ms + (t - ms) = t := by omega
    rw [heq, hS] at hch
    have hmem : ccTemplate.getD (t - ms) .dig ∈ ccTemplate :=
      gd_mem .dig ccTemplate (t - ms) (by rw [ccT_len]; omega)
    have := cc_no_char_S _ hmem
    rw [this] at hch
    cases hch

/-! ### Search transfer between slices and the buffer -/

lemma search_some_spec (tmpl : List PatChar) (buf : List Char)
    (a b ms me : Nat) (hb : b ≤ buf.length) (hts : 0 < tmpl.length)
    (h : reSearch tmpl (slice buf a b) = some (ms, me)) :
    me = ms + tmpl.length ∧ a + me ≤ b ∧
      matchesPref tmpl (buf.drop (a + ms)) = true ∧
      ∀ j, j < ms → matchesPref tmpl ((slice buf a b).drop j) = false := by
  unfold reSearch at h
  rw [Option.map_eq_some'] at h
  obtain ⟨i, hi, hpair⟩ := h
  rw [Prod.ext_iff] at hpair
  obtain ⟨hms, hme⟩ := hpair
  simp only [] at hms hme
  subst hms
  subst hme
  obtain ⟨h1, h2⟩ := st_some tmpl (slice buf a b) i hi
  have hdrop : (slice buf a b).drop i =
      (buf.drop (a + i)).take (b - a - i) := by
    unfold slice
    rw [List.drop_take, List.drop_drop]
  have hlen := ((mp_iff tmpl ((slice buf a b).drop i)).mp h1).1
  rw [hdrop] at hlen h1
  have hmp : matchesPref tmpl (buf.drop (a + i)) = true :=
    mp_take tmpl (buf.drop (a + i)) (b - a - i) h1
  refine ⟨rfl, ?_, hmp, h2⟩
  simp only [List.length_take, List.length_drop] at hlen
  omega

lemma search_none_spec (tmpl : List PatChar) (buf : List Char) (a b : Nat)
    (hb : b ≤ buf.length) (h : reSearch tmpl (slice buf a b) = none) :
    ∀ j, a ≤ j → j + tmpl.length ≤ b → matchesPref tmpl (buf.drop j) = false := by
  unfold reSearch at h
  rw [Option.map_eq_none'] at h
  intro j hja hjb
  cases hm : matchesPref tmpl (buf.drop j) with
  | false => rfl
  | true =>
    exfalso
    have hdrop : (slice buf a b).drop (j - a) =
        (buf.drop j).take (b - j) := by
      unfold slice
      rw [List.drop_take, List.drop_drop]
      have h1 : a + (j - a) = j := by omega
      have h2 : b - a - (j - a) = b - j := by omega
      rw [h1, h2]
    have : matchesPref tmpl ((slice buf a b).drop (j - a)) = true := by
      rw [hdrop]
      exact mp_take_of tmpl (buf.drop j) (b - j) hm (by omega)
    have hnone := st_none tmpl (slice buf a b) h (j - a)
    rw [this] at hnone
    cases hnone

lemma ccT_pos : 0 < ccTemplate.length := by rw [ccT_len]; omega

lemma ssnT_pos : 0 < ssnTemplate.length := by rw [ssnT_len]; omega

lemma cc_fit :
    ∀ j, j < ccTemplate.length →
      ccTemplate.getD j .dig = .lit (CC_REPLACE_STR.getD j ' ') ∨
        (ccTemplate.getD j .dig = .dig ∧ CC_REPLACE_STR.getD j ' ' = 'x') := by
  rw [ccT_len]
  exact cc_mask_fit

lemma ssn_fit :
    ∀ j, j < ssnTemplate.length →
      ssnTemplate.getD j .dig = .lit (SSN_REPLACE_STR.getD j ' ') ∨
        (ssnTemplate.getD j .dig = .dig ∧ SSN_REPLACE_STR.getD j ' ' = 'x') := by
  rw [ssnT_len]
  exact ssn_mask_fit

lemma reSearch_some_iff (tmpl : List PatChar) (l : List Char) (ms me : Nat) :
    reSearch tmpl l = some (ms, me) ↔
      searchTmpl tmpl l = some ms ∧ me = ms + tmpl.length := by
  unfold reSearch
  rw [Option.map_eq_some']
  constructor
  · rintro ⟨i, hi, hpair⟩
    rw [Prod.ext_iff] at hpair
    obtain ⟨h1, h2⟩ := hpair
    simp only [] at h1 h2
    subst h1
    exact ⟨hi, h2.symm⟩
  · rintro ⟨hi, hme⟩
    exact ⟨ms, hi, by rw [hme]⟩

lemma reSearch_none_iff (tmpl : List PatChar) (l : List Char) :
    reSearch tmpl l = none ↔ searchTmpl tmpl l = none := by
  unfold reSearch
  rw [Option.map_eq_none']

lemma sa_frame (s : List Char) (a b : Nat) (v : List Char) (hab : a ≤ b)
    (hb : b ≤ s.length) (r : List Char)
    (h : sliceAssign s a b v = .ok r) :
    ∀ k, k < a ∨ b ≤ k → r.getD k ' ' = s.getD k ' ' := by
  intro k hk
  rw [sa_getD s a b v hab hb r h k]
  rcases hk with hk | hk
  · rw [if_pos hk]
  · rw [if_neg (by omega), if_neg (by omega)]

lemma sa_mask (s : List Char) (a b : Nat) (v : List Char) (hab : a ≤ b)
    (hb : b ≤ s.length) (r : List Char)
    (h : sliceAssign s a b v = .ok r) :
    ∀ k, a ≤ k → k < b → r.getD k ' ' = v.getD (k - a) ' ' := by
  intro k h1 h2
  rw [sa_getD s a b v hab hb r h k]
  rw [if_neg (by omega), if_pos h2]

/-- After a credit-card overwrite on a line, the SSN search of the re-read
line finds the same span the SSN search of the original line found: the two
token spans are disjoint, the overwrite cannot create new SSN matches, and
the leftmost SSN match is therefore unmoved. -/
lemma ssn_after_cc (buf buf1 : List Char) (cur nxt ms me t1 t2 : Nat)
    (hn : nxt ≤ buf.length)
    (hcc : reSearch ccTemplate (slice buf cur nxt) = some (ms, me))
    (hssn : reSearch ssnTemplate (slice buf cur nxt) = some (t1, t2))
    (hw : sliceAssign buf (cur + ms) (cur + me) CC_REPLACE_STR = .ok buf1) :
    reSearch ssnTemplate (slice buf1 cur nxt) = some (t1, t2) := by
  obtain ⟨hme, hccb, hccm, _⟩ :=
    search_some_spec ccTemplate buf cur nxt ms me hn ccT_pos hcc
  obtain ⟨ht2, hssb, hssm, _⟩ :=
    search_some_spec ssnTemplate buf cur nxt t1 t2 hn ssnT_pos hssn
  have hwa : cur + me = (cur + ms) + ccTemplate.length := by omega
  have hdx : DigX buf buf1 := by
    refine digx_write ccTemplate CC_REPLACE_STR buf buf1 (cur + ms) hccm cc_fit
      ccT_pos ?_
    rw [← hwa]
    exact hw
  have hlen1 : buf1.length = buf.length := hdx.1.symm
  have hab : cur + ms ≤ cur + me := by
    rw [hme]
    omega
  have hbb : cur + me ≤ buf.length := by omega
  -- slice-level matches of the original line
  obtain ⟨hstC, _⟩ :=
    st_some ccTemplate (slice buf cur nxt) ms
      ((reSearch_some_iff ccTemplate _ ms me).mp hcc).1
  obtain ⟨hstS, hstSmin⟩ :=
    st_some ssnTemplate (slice buf cur nxt) t1
      ((reSearch_some_iff ssnTemplate _ t1 t2).mp hssn).1
  have hdisj := cc_ssn_disjoint (slice buf cur nxt) ms t1 hstC hstS
  have hdxs : DigX (slice buf cur nxt) (slice buf1 cur nxt) :=
    digx_slice buf buf1 cur nxt hdx
  -- the SSN match survives at t1
  have hlenS := ((mp_iff ssnTemplate ((slice buf cur nxt).drop t1)).mp hstS).1
  have hsurv : matchesPref ssnTemplate ((slice buf1 cur nxt).drop t1) = true := by
    refine mp_of_congr ssnTemplate ((slice buf cur nxt).drop t1)
      ((slice buf1 cur nxt).drop t1) hstS ?_ ?_
    · have : (slice buf1 cur nxt).length = (slice buf cur nxt).length := by
        unfold slice
        simp only [List.length_take, List.length_drop, hlen1]
      simp only [List.length_drop] at hlenS ⊢
      omega
    · intro k hk
      rw [ssnT_len] at hk
      rw [gd_drop, gd_drop, slice_getD, slice_getD]
      have hkwin : t1 + k < nxt - cur := by
        rw [ssnT_len] at ht2
        omega
      rw [if_pos hkwin, if_pos hkwin]
      have hout : cur + (t1 + k) < cur + ms ∨ cur + me ≤ cur + (t1 + k) := by
        rw [hme, ccT_len]
        rcases hdisj with hd | hd
        · left; omega
        · right; omega
      exact sa_frame buf (cur + ms) (cur + me) CC_REPLACE_STR hab hbb buf1 hw
        (cur + (t1 + k)) hout
  -- no SSN match can appear to the left of t1
  have hmin1 : ∀ j, j < t1 →
      matchesPref ssnTemplate ((slice buf1 cur nxt).drop j) = false := by
    intro j hj
    cases hmp : matchesPref ssnTemplate ((slice buf1 cur nxt).drop j) with
    | false => rfl
    | true =>
      exfalso
      have := digx_nocreate ssnTemplate ssn_no_xlit (slice buf cur nxt)
        (slice buf1 cur nxt) hdxs j hmp
      have hf := hstSmin j hj
      rw [this] at hf
      cases hf
  rw [reSearch_some_iff]
  exact ⟨st_eq_some_of ssnTemplate (slice buf1 cur nxt) t1 hsurv hmin1, ht2⟩

/-- One loop iteration always succeeds, preserves the buffer length, writes
only inside the line span, relates the buffers by the digit-to-mask
relation, and reports exactly whether each class has a token on the original
line. -/
lemma step_main (buf : List Char) (cur nxt : Nat) (hcn : cur ≤ nxt)
    (hn : nxt ≤ buf.length) :
    ∃ buf1 ccb ssnb, stepLine buf cur nxt = .ok (buf1, ccb, ssnb) ∧
      buf1.length = buf.length ∧
      (∀ k, k < cur ∨ nxt ≤ k → buf1.getD k ' ' = buf.getD k ' ') ∧
      DigX buf buf1 ∧
      ccb = (reSearch ccTemplate (slice buf cur nxt)).isSome ∧
      ssnb = (reSearch ssnTemplate (slice buf cur nxt)).isSome := by
  cases hcc : reSearch ccTemplate (slice buf cur nxt) with
  | none =>
    cases hssn : reSearch ssnTemplate (slice buf cur nxt) with
    | none =>
      refine ⟨buf, false, false, ?_, rfl, fun k _ => rfl, digx_refl buf,
        rfl, rfl⟩
      simp only [stepLine, hcc, hssn]
    | some p =>
      obtain ⟨t1, t2⟩ := p
      obtain ⟨ht2, hssb, hssm, _⟩ :=
        search_some_spec ssnTemplate buf cur nxt t1 t2 hn ssnT_pos hssn
      have hab : cur + t1 ≤ cur + t2 := by omega
      have hbb : cur + t2 ≤ buf.length := by omega
      have hv : SSN_REPLACE_STR.length = (cur + t2) - (cur + t1) := by
        rw [ssnMask_len, ht2, ssnT_len]
        omega
      have hw := sa_ok buf (cur + t1) (cur + t2) SSN_REPLACE_STR hab hbb hv
      refine ⟨buf.take (cur + t1) ++ SSN_REPLACE_STR ++ buf.drop (cur + t2),
        false, true, ?_, ?_, ?_, ?_, rfl, rfl⟩
      · simp only [stepLine, hcc, hssn, hw]
      · exact (sa_ok_len buf (cur + t1) (cur + t2) SSN_REPLACE_STR hab hbb _ hw).2
      · intro k hk
        refine sa_frame buf (cur + t1) (cur + t2) SSN_REPLACE_STR hab hbb _ hw k ?_
        rcases hk with hk | hk
        · left; omega
        · right; omega
      · refine digx_write ssnTemplate SSN_REPLACE_STR buf _ (cur + t1) hssm ssn_fit
          ssnT_pos ?_
        have : (cur + t1) + ssnTemplate.length = cur + t2 := by omega
        rw [this]
        exact hw
  | some p =>
    obtain ⟨ms, me⟩ := p
    obtain ⟨hme, hccb, hccm, _⟩ :=
      search_some_spec ccTemplate buf cur nxt ms me hn ccT_pos hcc
    have hab1 : cur + ms ≤ cur + me := by omega
    have hbb1 : cur + me ≤ buf.length := by omega
    have hv1 : CC_REPLACE_STR.length = (cur + me) - (cur + ms) := by
      rw [ccMask_len, hme, ccT_len]
      omega
    have hw1 := sa_ok buf (cur + ms) (cur + me) CC_REPLACE_STR hab1 hbb1 hv1
    set buf1 := buf.take (cur + ms) ++ CC_REPLACE_STR ++ buf.drop (cur + me)
      with hbuf1
    have hlen1 : buf1.length = buf.length :=
      (sa_ok_len buf (cur + ms) (cur + me) CC_REPLACE_STR hab1 hbb1 buf1 hw1).2
    have hdx1 : DigX buf buf1 := by
      refine digx_write ccTemplate CC_REPLACE_STR buf buf1 (cur + ms) hccm cc_fit
        ccT_pos ?_
      have : (cur + ms) + ccTemplate.length = cur + me := by omega
      rw [this]
      exact hw1
    have hfr1 : ∀ k, k < cur ∨ nxt ≤ k → buf1.getD k ' ' = buf.getD k ' ' := by
      intro k hk
      refine sa_frame buf (cur + ms) (cur + me) CC_REPLACE_STR hab1 hbb1 buf1 hw1
        k ?_
      rcases hk with hk | hk
      · left; omega
      · right; omega
    cases hssn1 : reSearch ssnTemplate (slice buf1 cur nxt) with
    | none =>
      refine ⟨buf1, true, false, ?_, hlen1, hfr1, hdx1, rfl, ?_⟩
      · simp only [stepLine, hcc, hw1, hssn1]
      · cases hssn : reSearch ssnTemplate (slice buf cur nxt) with
        | none => rfl
        | some q =>
          exfalso
          obtain ⟨t1, t2⟩ := q
          have := ssn_after_cc buf buf1 cur nxt ms me t1 t2 hn hcc hssn hw1
          rw [hssn1] at this
          cases this
    | some q =>
      obtain ⟨t1, t2⟩ := q
      have hn1 : nxt ≤ buf1.length := by omega
      obtain ⟨ht2, hssb1, hssm1, _⟩ :=
        search_some_spec ssnTemplate buf1 cur nxt t1 t2 hn1 ssnT_pos hssn1
      have hab2 : cur + t1 ≤ cur + t2 := by omega
      have hbb2 : cur + t2 ≤ buf1.length := by omega
      have hv2 : SSN_REPLACE_STR.length = (cur + t2) - (cur + t1) := by
        rw [ssnMask_len, ht2, ssnT_len]
        omega
      have hw2 := sa_ok buf1 (cur + t1) (cur + t2) SSN_REPLACE_STR hab2 hbb2 hv2
      set buf2 := buf1.take (cur + t1) ++ SSN_REPLACE_STR ++ buf1.drop (cur + t2)
        with hbuf2
      have hlen2 : buf2.length = buf1.length :=
        (sa_ok_len buf1 (cur + t1) (cur + t2) SSN_REPLACE_STR hab2 hbb2 buf2
          hw2).2
      have hdx2 : DigX buf1 buf2 := by
        refine digx_write ssnTemplate SSN_REPLACE_STR buf1 buf2 (cur + t1) hssm1
          ssn_fit ssnT_pos ?_
        have : (cur + t1) + ssnTemplate.length = cur + t2 := by omega
        rw [this]
        exact hw2
      refine ⟨buf2, true, true, ?_, by omega, ?_, digx_trans buf buf1 buf2 hdx1
        hdx2, rfl, ?_⟩
      · simp only [stepLine, hcc, hw1, hssn1, hw2]
      · intro k hk
        have h2 := sa_frame buf1 (cur + t1) (cur + t2) SSN_REPLACE_STR hab2 hbb2
          buf2 hw2 k ?_
        · rw [h2]
          exact hfr1 k hk
        · rcases hk with hk | hk
          · left; omega
          · right; omega
      · -- the original line also has an SSN token
        have hmp1 : matchesPref ssnTemplate ((slice buf1 cur nxt).drop t1) = true :=
          (st_some ssnTemplate (slice buf1 cur nxt) t1
            ((reSearch_some_iff ssnTemplate _ t1 t2).mp hssn1).1).1
        have hmp0 : matchesPref ssnTemplate ((slice buf cur nxt).drop t1) = true :=
          digx_nocreate ssnTemplate ssn_no_xlit (slice buf cur nxt)
            (slice buf1 cur nxt) (digx_slice buf buf1 cur nxt hdx1) t1 hmp1
        obtain ⟨k, hk⟩ := st_complete ssnTemplate (slice buf cur nxt) t1 hmp0
        have : reSearch ssnTemplate (slice buf cur nxt) =
            some (k, k + ssnTemplate.length) :=
          (reSearch_some_iff ssnTemplate _ k _).mpr ⟨hk, rfl⟩
        rw [this]
        rfl

/-! ### Scan-loop lemmas -/

lemma slice_match_to_buf (tmpl : List PatChar) (buf : List Char) (a b j : Nat)
    (h : matchesPref tmpl ((slice buf a b).drop j) = true) :
    matchesPref tmpl (buf.drop (a + j)) = true := by
  have hdrop : (slice buf a b).drop j = (buf.drop (a + j)).take (b - a - j) := by
    unfold slice
    rw [List.drop_take, List.drop_drop]
  rw [hdrop] at h
  exact mp_take tmpl (buf.drop (a + j)) (b - a - j) h

lemma search_slice_none (tmpl : List PatChar) (buf : List Char) (a b : Nat)
    (hno : ∀ j, matchesPref tmpl (buf.drop j) = false) :
    reSearch tmpl (slice buf a b) = none := by
  rw [reSearch_none_iff]
  cases h : searchTmpl tmpl (slice buf a b) with
  | none => rfl
  | some i =>
    exfalso
    have hm := (st_some tmpl (slice buf a b) i h).1
    have := slice_match_to_buf tmpl buf a b i hm
    rw [hno (a + i)] at this
    cases this

/-- Main loop invariant: from any cursor at most the end of the buffer and
with enough fuel, the loop succeeds, keeps the length, never writes before
the cursor, advances `line_count` by the number of remaining lines, keeps
`lines_redacted` bounded by the lines seen, balances the class counters
against the redacted-line counter through the both-token line count, and
appends one whole-buffer flush event per redacted line. -/
lemma loop_main :
    ∀ (fuel : Nat) (buf : List Char) (i : Nat) (res : AuditMetadata)
      (fl : List (Nat × Nat)), i ≤ buf.length → buf.length ≤ i + fuel →
      ∃ buf2 res2 fl2,
        redactLoopF fuel buf i res fl = .ok (buf2, res2, fl2) ∧
        buf2.length = buf.length ∧
        (∀ k, k < i → buf2.getD k ' ' = buf.getD k ' ') ∧
        res2.lineCount = res.lineCount + (segsF fuel buf i).length ∧
        res.linesRedacted ≤ res2.linesRedacted ∧
        res2.linesRedacted + res.lineCount ≤ res.linesRedacted + res2.lineCount ∧
        res2.linesRedacted + res.ccRedactions + res.ssnRedactions +
            bothLinesF fuel buf i =
          res.linesRedacted + res2.ccRedactions + res2.ssnRedactions ∧
        fl2.length + res.linesRedacted = fl.length + res2.linesRedacted ∧
        (∀ e ∈ fl2, e ∈ fl ∨ e = (0, buf.length)) := by
  intro fuel
  induction fuel with
  | zero =>
    intro buf i res fl hi hf
    refine ⟨buf, res, fl, rfl, rfl, fun k _ => rfl, ?_, le_refl _, by omega, ?_,
      by omega, fun e he => Or.inl he⟩
    · simp [segsF]
    · simp [bothLinesF]
  | succ fuel ih =>
    intro buf i res fl hi hf
    by_cases hlt : i < buf.length
    · have hcn : i ≤ lineEnd buf i := le_of_lt (lineEnd_gt buf i hlt)
      have hn : lineEnd buf i ≤ buf.length := lineEnd_le buf i hi
      obtain ⟨buf1, ccb, ssnb, hstep, hlen1, hfr1, hdx1, hccb, hssnb⟩ :=
        step_main buf i (lineEnd buf i) hcn hn
      have hloop : redactLoopF (fuel + 1) buf i res fl =
          redactLoopF fuel buf1 (lineEnd buf i)
            ⟨res.linesRedacted + (if ccb || ssnb then 1 else 0),
             res.lineCount + 1,
             res.ccRedactions + (if ccb then 1 else 0),
             res.ssnRedactions + (if ssnb then 1 else 0)⟩
            (if ccb || ssnb then fl ++ [(0, buf1.length)] else fl) := by
        rw [redactLoopF, if_pos hlt, hstep]
      have hgt := lineEnd_gt buf i hlt
      obtain ⟨buf2, res2, fl2, heq, hlen2, hfr2, hlc2, hmono2, hbound2, hcnt2,
          hfl2, hflm2⟩ :=
        ih buf1 (lineEnd buf i)
          ⟨res.linesRedacted + (if ccb || ssnb then 1 else 0),
           res.lineCount + 1,
           res.ccRedactions + (if ccb then 1 else 0),
           res.ssnRedactions + (if ssnb then 1 else 0)⟩
          (if ccb || ssnb then fl ++ [(0, buf1.length)] else fl)
          (by omega) (by omega)
      have hsegstab : segsF fuel buf1 (lineEnd buf i) =
          segsF fuel buf (lineEnd buf i) :=
        segsF_stable fuel buf buf1 (lineEnd buf i) hlen1
          (fun k hk => hfr1 k (Or.inr hk))
      have hsegs : segsF (fuel + 1) buf i =
          (i, lineEnd buf i) :: segsF fuel buf (lineEnd buf i) := by
        rw [segsF, if_pos hlt]
      have hboth : bothLinesF (fuel + 1) buf i =
          (if ccb && ssnb then 1 else 0) + bothLinesF fuel buf1 (lineEnd buf i) := by
        rw [bothLinesF, if_pos hlt, hstep]
      have hsum : (if ccb || ssnb then 1 else 0) + (if ccb && ssnb then 1 else 0) =
          (if ccb then 1 else 0) + (if ssnb then 1 else 0) := by
        cases ccb <;> cases ssnb <;> simp
      have hor1 : (if ccb || ssnb then (1 : Nat) else 0) ≤ 1 := by
        split <;> omega
      have hfl1 : (if ccb || ssnb then fl ++ [(0, buf1.length)] else fl).length =
          fl.length + (if ccb || ssnb then 1 else 0) := by
        split <;> simp
      refine ⟨buf2, res2, fl2, hloop.trans heq, by omega, ?_, ?_, ?_, ?_, ?_,
        ?_, ?_⟩
      · intro k hk
        rw [hfr2 k (by omega)]
        exact hfr1 k (Or.inl hk)
      · rw [hlc2, hsegs, hsegstab]
        simp only [List.length_cons]
        omega
      · simp only [] at hmono2
        omega
      · simp only [] at hbound2
        omega
      · rw [hboth, hsegstab] at *
        simp only [] at hcnt2
        omega
      · rw [hfl1] at hfl2
        simp only [] at hfl2
        omega
      · intro e he
        rcases hflm2 e he with hin | heq2
        · by_cases hc : ccb || ssnb
          · rw [if_pos hc] at hin
            rcases List.mem_append.mp hin with h1 | h1
            · exact Or.inl h1
            · right
              have := List.mem_singleton.mp h1
              rw [this, hlen1]
          · rw [if_neg hc] at hin
            exact Or.inl hin
        · right
          rw [heq2, hlen1]
    · refine ⟨buf, res, fl, ?_, rfl, fun k _ => rfl, ?_, le_refl _, by omega, ?_,
        by omega, fun e he => Or.inl he⟩
      · rw [redactLoopF, if_neg hlt]
      · rw [segsF, if_neg hlt]
        simp
      · rw [bothLinesF, if_neg hlt]
        omega

/-- A pass over a buffer with no tokens at all is the identity: no byte
changes, no redaction counter moves, no flush is issued; only the running
line count advances. -/
lemma loop_clean_pass :
    ∀ (fuel : Nat) (buf : List Char) (i : Nat) (res : AuditMetadata)
      (fl : List (Nat × Nat)), i ≤ buf.length → buf.length ≤ i + fuel →
      (∀ j, matchesPref ccTemplate (buf.drop j) = false) →
      (∀ j, matchesPref ssnTemplate (buf.drop j) = false) →
      ∃ lc2, redactLoopF fuel buf i res fl =
        .ok (buf, ⟨res.linesRedacted, lc2, res.ccRedactions,
          res.ssnRedactions⟩, fl) := by
  intro fuel
  induction fuel with
  | zero =>
    intro buf i res fl hi hf _ _
    exact ⟨res.lineCount, rfl⟩
  | succ fuel ih =>
    intro buf i res fl hi hf hnc hns
    by_cases hlt : i < buf.length
    · have hcc : reSearch ccTemplate (slice buf i (lineEnd buf i)) = none :=
        search_slice_none ccTemplate buf i (lineEnd buf i) hnc
      have hssn : reSearch ssnTemplate (slice buf i (lineEnd buf i)) = none :=
        search_slice_none ssnTemplate buf i (lineEnd buf i) hns
      have hstep : stepLine buf i (lineEnd buf i) = .ok (buf, false, false) := by
        simp only [stepLine, hcc, hssn]
      have hgt := lineEnd_gt buf i hlt
      have hn : lineEnd buf i ≤ buf.length := lineEnd_le buf i hi
      obtain ⟨lc2, hrec⟩ := ih buf (lineEnd buf i)
        ⟨res.linesRedacted + (if (false : Bool) || false then 1 else 0),
         res.lineCount + 1,
         res.ccRedactions + (if (false : Bool) then 1 else 0),
         res.ssnRedactions + (if (false : Bool) then 1 else 0)⟩
        (if (false : Bool) || false then fl ++ [(0, buf.length)] else fl)
        (by omega) (by omega) hnc hns
      refine ⟨lc2, ?_⟩
      rw [redactLoopF, if_pos hlt, hstep]
      simp only [Bool.or_self, Bool.false_eq_true, if_neg, ite_false] at hrec ⊢
      convert hrec using 3 <;> simp
    · exact ⟨res.lineCount, by rw [redactLoopF, if_neg hlt]⟩

/-- The both-token line count of the loop equals the number of line spans of
the buffer whose original content carries both tokens. -/
lemma both_count :
    ∀ (fuel : Nat) (buf : List Char) (i : Nat), i ≤ buf.length →
      buf.length ≤ i + fuel →
      bothLinesF fuel buf i =
        ((segsF fuel buf i).filter
          (fun ab => hasBoth (slice buf ab.1 ab.2))).length := by
  intro fuel
  induction fuel with
  | zero =>
    intro buf i _ _
    simp [bothLinesF, segsF]
  | succ fuel ih =>
    intro buf i hi hf
    by_cases hlt : i < buf.length
    · have hcn : i ≤ lineEnd buf i := le_of_lt (lineEnd_gt buf i hlt)
      have hn : lineEnd buf i ≤ buf.length := lineEnd_le buf i hi
      obtain ⟨buf1, ccb, ssnb, hstep, hlen1, hfr1, hdx1, hccb, hssnb⟩ :=
        step_main buf i (lineEnd buf i) hcn hn
      have hgt := lineEnd_gt buf i hlt
      have hind : (ccb && ssnb) = hasBoth (slice buf i (lineEnd buf i)) := by
        rw [hccb, hssnb]
        rfl
      have htail : bothLinesF fuel buf1 (lineEnd buf i) =
          ((segsF fuel buf (lineEnd buf i)).filter
            (fun ab => hasBoth (slice buf ab.1 ab.2))).length := by
        rw [ih buf1 (lineEnd buf i) (by omega) (by omega)]
        rw [segsF_stable fuel buf buf1 (lineEnd buf i) hlen1
          (fun k hk => hfr1 k (Or.inr hk))]
        congr 1
        apply List.filter_congr
        intro ab hab
        obtain ⟨hab1, _, _, _⟩ := segsF_mem fuel buf (lineEnd buf i) ab hab
        rw [slice_stable buf buf1 ab.1 ab.2 (lineEnd buf i) hlen1
          (fun k hk => hfr1 k (Or.inr hk)) hab1]
      have hred : bothLinesF (fuel + 1) buf i =
          (if ccb && ssnb then 1 else 0) + bothLinesF fuel buf1 (lineEnd buf i) := by
        rw [bothLinesF, if_pos hlt, hstep]
      have hsegs : segsF (fuel + 1) buf i =
          (i, lineEnd buf i) :: segsF fuel buf (lineEnd buf i) := by
        rw [segsF, if_pos hlt]
      rw [hred, htail, hsegs, List.filter_cons, hind]
      cases hb : hasBoth (slice buf i (lineEnd buf i))
      · simp [hb]
      · simp [hb]
        omega
    · rw [bothLinesF, if_neg hlt, segsF, if_neg hlt]
      simp

/-! ### Idempotence machinery -/

lemma short_mem_eq {α : Type} (l : List α) (h : l.length ≤ 1) (a b : α)
    (ha : a ∈ l) (hb : b ∈ l) : a = b := by
  cases l with
  | nil => simp at ha
  | cons x xs =>
    cases xs with
    | nil =>
      rw [List.mem_singleton.mp ha, List.mem_singleton.mp hb]
    | cons y ys => simp at h

lemma atMostOne_unique (tmpl : List PatChar) (l : List Char)
    (h : atMostOneB tmpl l = true) (hts : 0 < tmpl.length) (j k : Nat)
    (hj : matchesPref tmpl (l.drop j) = true)
    (hk : matchesPref tmpl (l.drop k) = true) : j = k := by
  have hjm : j ∈ (List.range (l.length + 1)).filter
      (fun j => matchesPref tmpl (l.drop j)) := by
    refine List.mem_filter.mpr ⟨List.mem_range.mpr ?_, hj⟩
    have := ((mp_iff tmpl (l.drop j)).mp hj).1
    simp only [List.length_drop] at this
    omega
  have hkm : k ∈ (List.range (l.length + 1)).filter
      (fun j => matchesPref tmpl (l.drop j)) := by
    refine List.mem_filter.mpr ⟨List.mem_range.mpr ?_, hk⟩
    have := ((mp_iff tmpl (l.drop k)).mp hk).1
    simp only [List.length_drop] at this
    omega
  have hlen : ((List.range (l.length + 1)).filter
      (fun j => matchesPref tmpl (l.drop j))).length ≤ 1 := by
    have := h
    unfold atMostOneB at this
    exact of_decide_eq_true this
  exact short_mem_eq _ hlen j k hjm hkm

lemma mp_at_slot (tmpl : List PatChar) (l : List Char) (j q : Nat)
    (h : matchesPref tmpl (l.drop j) = true) (hq : q < tmpl.length) :
    patMatches (tmpl.getD q .dig) (l.getD (j + q) ' ') = true := by
  have := ((mp_iff tmpl (l.drop j)).mp h).2 q hq
  rw [gd_drop] at this
  exact this

lemma kill_cc (l1 : List Char) (ms : Nat) (hx : l1.getD (ms + 4) ' ' = 'x') :
    matchesPref ccTemplate (l1.drop ms) = false := by
  cases hm : matchesPref ccTemplate (l1.drop ms) with
  | false => rfl
  | true =>
    exfalso
    have h := mp_at_slot ccTemplate l1 ms 4 hm (by rw [ccT_len]; omega)
    rw [cc_slot4, hx] at h
    simp only [patMatches] at h
    rw [x_not_digit] at h
    cases h

lemma kill_ssn (l1 : List Char) (t1 : Nat) (hx : l1.getD (t1 + 5) ' ' = 'x') :
    matchesPref ssnTemplate (l1.drop t1) = false := by
  cases hm : matchesPref ssnTemplate (l1.drop t1) with
  | false => rfl
  | true =>
    exfalso
    have h := mp_at_slot ssnTemplate l1 t1 5 hm (by rw [ssnT_len]; omega)
    rw [ssn_slot5, hx] at h
    simp only [patMatches] at h
    rw [x_not_digit] at h
    cases h

lemma write_line_getD (buf r : List Char) (cur nxt a b k : Nat) (v : List Char)
    (hab : cur + a ≤ cur + b) (hbb : cur + b ≤ buf.length)
    (h : sliceAssign buf (cur + a) (cur + b) v = .ok r)
    (hka : a ≤ k) (hkb : k < b) (hwin : k < nxt - cur) :
    (slice r cur nxt).getD k ' ' = v.getD (k - a) ' ' := by
  rw [slice_getD, if_pos hwin]
  have hm := sa_mask buf (cur + a) (cur + b) v hab hbb r h (cur + k)
    (by omega) (by omega)
  rw [hm]
  congr 1
  omega

/-- After one loop iteration on a line carrying at most one token of each
class, the processed line carries no token of either class at any offset. -/
lemma step_clean (buf : List Char) (cur nxt : Nat)
    (hn : nxt ≤ buf.length)
    (hu1 : atMostOneB ccTemplate (slice buf cur nxt) = true)
    (hu2 : atMostOneB ssnTemplate (slice buf cur nxt) = true)
    (buf1 : List Char) (ccb ssnb : Bool)
    (hstep : stepLine buf cur nxt = .ok (buf1, ccb, ssnb)) :
    ∀ j, matchesPref ccTemplate ((slice buf1 cur nxt).drop j) = false ∧
      matchesPref ssnTemplate ((slice buf1 cur nxt).drop j) = false := by
  cases hcc : reSearch ccTemplate (slice buf cur nxt) with
  | none =>
    cases hssn : reSearch ssnTemplate (slice buf cur nxt) with
    | none =>
      simp only [stepLine, hcc, hssn, Except.ok.injEq, Prod.mk.injEq] at hstep
      obtain ⟨h1, _, _⟩ := hstep
      subst h1
      intro j
      rw [reSearch_none_iff] at hcc hssn
      exact ⟨st_none ccTemplate _ hcc j, st_none ssnTemplate _ hssn j⟩
    | some q =>
      obtain ⟨t1, t2⟩ := q
      obtain ⟨ht2, hssb, hssm, _⟩ :=
        search_some_spec ssnTemplate buf cur nxt t1 t2 hn ssnT_pos hssn
      have hab : cur + t1 ≤ cur + t2 := by omega
      have hbb : cur + t2 ≤ buf.length := by omega
      have hv : SSN_REPLACE_STR.length = (cur + t2) - (cur + t1) := by
        rw [ssnMask_len, ht2, ssnT_len]
        omega
      have hw := sa_ok buf (cur + t1) (cur + t2) SSN_REPLACE_STR hab hbb hv
      simp only [stepLine, hcc, hssn, hw, Except.ok.injEq, Prod.mk.injEq]
        at hstep
      obtain ⟨h1, _, _⟩ := hstep
      have hdx : DigX buf buf1 := by
        refine digx_write ssnTemplate SSN_REPLACE_STR buf buf1 (cur + t1) hssm
          ssn_fit ssnT_pos ?_
        have he : (cur + t1) + ssnTemplate.length = cur + t2 := by omega
        rw [he, ← h1]
        exact hw
      have hdxs : DigX (slice buf cur nxt) (slice buf1 cur nxt) :=
        digx_slice buf buf1 cur nxt hdx
      have hwin : t1 + 5 < nxt - cur := by
        rw [ssnT_len] at ht2
        omega
      have hxm : (slice buf1 cur nxt).getD (t1 + 5) ' ' = 'x' := by
        have := write_line_getD buf buf1 cur nxt t1 t2 (t1 + 5) SSN_REPLACE_STR
          hab hbb (by rw [← h1]; exact hw) (by omega)
          (by rw [ssnT_len] at ht2; omega) hwin
        rw [this]
        have h5 : t1 + 5 - t1 = 5 := by omega
        rw [h5, ssnMask_at5]
      have hkill := kill_ssn (slice buf1 cur nxt) t1 hxm
      have hmt1 : matchesPref ssnTemplate ((slice buf cur nxt).drop t1) = true :=
        (st_some ssnTemplate _ t1
          ((reSearch_some_iff ssnTemplate _ t1 t2).mp hssn).1).1
      intro j
      constructor
      · cases hm : matchesPref ccTemplate ((slice buf1 cur nxt).drop j) with
        | false => rfl
        | true =>
          exfalso
          have h0 := digx_nocreate ccTemplate cc_no_xlit _ _ hdxs j hm
          rw [reSearch_none_iff] at hcc
          have := st_none ccTemplate _ hcc j
          rw [h0] at this
          cases this
      · cases hm : matchesPref ssnTemplate ((slice buf1 cur nxt).drop j) with
        | false => rfl
        | true =>
          exfalso
          have h0 := digx_nocreate ssnTemplate ssn_no_xlit _ _ hdxs j hm
          have hjt := atMostOne_unique ssnTemplate (slice buf cur nxt) hu2 ssnT_pos j t1
            h0 hmt1
          rw [hjt] at hm
          rw [hkill] at hm
          cases hm
  | some p =>
    obtain ⟨ms, me⟩ := p
    obtain ⟨hme, hccb, hccm, _⟩ :=
      search_some_spec ccTemplate buf cur nxt ms me hn ccT_pos hcc
    have hab1 : cur + ms ≤ cur + me := by omega
    have hbb1 : cur + me ≤ buf.length := by omega
    have hv1 : CC_REPLACE_STR.length = (cur + me) - (cur + ms) := by
      rw [ccMask_len, hme, ccT_len]
      omega
    have hw1 := sa_ok buf (cur + ms) (cur + me) CC_REPLACE_STR hab1 hbb1 hv1
    set wbuf1 := buf.take (cur + ms) ++ CC_REPLACE_STR ++ buf.drop (cur + me)
      with hwbuf1
    have hdx1 : DigX buf wbuf1 := by
      refine digx_write ccTemplate CC_REPLACE_STR buf wbuf1 (cur + ms) hccm
        cc_fit ccT_pos ?_
      have he : (cur + ms) + ccTemplate.length = cur + me := by omega
      rw [he]
      exact hw1
    have hdxs1 : DigX (slice buf cur nxt) (slice wbuf1 cur nxt) :=
      digx_slice buf wbuf1 cur nxt hdx1
    have hwin1 : ms + 4 < nxt - cur := by
      rw [ccT_len] at hme
      omega
    have hxm1 : (slice wbuf1 cur nxt).getD (ms + 4) ' ' = 'x' := by
      have := write_line_getD buf wbuf1 cur nxt ms me (ms + 4) CC_REPLACE_STR
        hab1 hbb1 hw1 (by omega) (by rw [ccT_len] at hme; omega) hwin1
      rw [this]
      have h4 : ms + 4 - ms = 4 := by omega
      rw [h4, ccMask_at4]
    have hkill1 := kill_cc (slice wbuf1 cur nxt) ms hxm1
    have hmms : matchesPref ccTemplate ((slice buf cur nxt).drop ms) = true :=
      (st_some ccTemplate _ ms
        ((reSearch_some_iff ccTemplate _ ms me).mp hcc).1).1
    have hccClean : ∀ j,
        matchesPref ccTemplate ((slice wbuf1 cur nxt).drop j) = false := by
      intro j
      cases hm : matchesPref ccTemplate ((slice wbuf1 cur nxt).drop j) with
      | false => rfl
      | true =>
        exfalso
        have h0 := digx_nocreate ccTemplate cc_no_xlit _ _ hdxs1 j hm
        have hjm := atMostOne_unique ccTemplate (slice buf cur nxt) hu1 ccT_pos j ms
          h0 hmms
        rw [hjm] at hm
        rw [hkill1] at hm
        cases hm
    cases hssn1 : reSearch ssnTemplate (slice wbuf1 cur nxt) with
    | none =>
      simp only [stepLine, hcc, hw1, hssn1, Except.ok.injEq, Prod.mk.injEq]
        at hstep
      obtain ⟨h1, _, _⟩ := hstep
      subst h1
      intro j
      refine ⟨hccClean j, ?_⟩
      rw [reSearch_none_iff] at hssn1
      exact st_none ssnTemplate _ hssn1 j
    | some q =>
      obtain ⟨t1, t2⟩ := q
      have hlen1 : wbuf1.length = buf.length := hdx1.1.symm
      have hn1 : nxt ≤ wbuf1.length := by omega
      obtain ⟨ht2, hssb1, hssm1, _⟩ :=
        search_some_spec ssnTemplate wbuf1 cur nxt t1 t2 hn1 ssnT_pos hssn1
      have hab2 : cur + t1 ≤ cur + t2 := by omega
      have hbb2 : cur + t2 ≤ wbuf1.length := by omega
      have hv2 : SSN_REPLACE_STR.length = (cur + t2) - (cur + t1) := by
        rw [ssnMask_len, ht2, ssnT_len]
        omega
      have hw2 := sa_ok wbuf1 (cur + t1) (cur + t2) SSN_REPLACE_STR hab2 hbb2 hv2
      simp only [stepLine, hcc, hw1, hssn1, hw2, Except.ok.injEq, Prod.mk.injEq]
        at hstep
      obtain ⟨h1, _, _⟩ := hstep
      have hdx2 : DigX wbuf1 buf1 := by
        refine digx_write ssnTemplate SSN_REPLACE_STR wbuf1 buf1 (cur + t1)
          hssm1 ssn_fit ssnT_pos ?_
        have he : (cur + t1) + ssnTemplate.length = cur + t2 := by omega
        rw [he, ← h1]
        exact hw2
      have hdxs2 : DigX (slice wbuf1 cur nxt) (slice buf1 cur nxt) :=
        digx_slice wbuf1 buf1 cur nxt hdx2
      have hwin2 : t1 + 5 < nxt - cur := by
        rw [ssnT_len] at ht2
        omega
      have hxm2 : (slice buf1 cur nxt).getD (t1 + 5) ' ' = 'x' := by
        have := write_line_getD wbuf1 buf1 cur nxt t1 t2 (t1 + 5) SSN_REPLACE_STR
          hab2 hbb2 (by rw [← h1]; exact hw2) (by omega)
          (by rw [ssnT_len] at ht2; omega) hwin2
        rw [this]
        have h5 : t1 + 5 - t1 = 5 := by omega
        rw [h5, ssnMask_at5]
      have hkill2 := kill_ssn (slice buf1 cur nxt) t1 hxm2
      have hmt1 : matchesPref ssnTemplate ((slice wbuf1 cur nxt).drop t1) = true :=
        (st_some ssnTemplate _ t1
          ((reSearch_some_iff ssnTemplate _ t1 t2).mp hssn1).1).1
      have hmt0 : matchesPref ssnTemplate ((slice buf cur nxt).drop t1) = true :=
        digx_nocreate ssnTemplate ssn_no_xlit _ _ hdxs1 t1 hmt1
      intro j
      constructor
      · cases hm : matchesPref ccTemplate ((slice buf1 cur nxt).drop j) with
        | false => rfl
        | true =>
          exfalso
          have h0 := digx_nocreate ccTemplate cc_no_xlit _ _ hdxs2 j hm
          rw [hccClean j] at h0
          cases h0
      · cases hm : matchesPref ssnTemplate ((slice buf1 cur nxt).drop j) with
        | false => rfl
        | true =>
          exfalso
          have h0 := digx_nocreate ssnTemplate ssn_no_xlit _ _ hdxs2 j hm
          have h00 := digx_nocreate ssnTemplate ssn_no_xlit _ _ hdxs1 j h0
          have hjt := atMostOne_unique ssnTemplate (slice buf cur nxt) hu2 ssnT_pos j t1
            h00 hmt0
          rw [hjt] at hm
          rw [hkill2] at hm
          cases hm

/-- A buffer-level match starting inside a line and fitting before the
line's terminator is a line-level match. -/
lemma match_within_line (tmpl : List PatChar) (b1 : List Char) (nxt j : Nat)
    (hnl : nxt = b1.length ∨ b1.getD (nxt - 1) ' ' = '\n')
    (hnn : ∀ p ∈ tmpl, patMatches p '\n' = false)
    (hjn : j < nxt)
    (hm : matchesPref tmpl (b1.drop j) = true) :
    j + tmpl.length ≤ nxt := by
  by_contra hcon
  push_neg at hcon
  rcases hnl with hend | hnl
  · have hL := ((mp_iff tmpl (b1.drop j)).mp hm).1
    simp only [List.length_drop] at hL
    omega
  · have hq : nxt - 1 - j < tmpl.length := by omega
    have hslot := mp_at_slot tmpl b1 j (nxt - 1 - j) hm hq
    have hidx : j + (nxt - 1 - j) = nxt - 1 := by omega
    rw [hidx, hnl] at hslot
    have hmem := gd_mem .dig tmpl _ hq
    have := hnn _ hmem
    rw [this] at hslot
    cases hslot

lemma buf_match_to_slice (tmpl : List PatChar) (b1 : List Char) (i nxt j : Nat)
    (hij : i ≤ j) (hfit : j + tmpl.length ≤ nxt)
    (hm : matchesPref tmpl (b1.drop j) = true) :
    matchesPref tmpl ((slice b1 i nxt).drop (j - i)) = true := by
  have hdrop : (slice b1 i nxt).drop (j - i) = (b1.drop j).take (nxt - j) := by
    unfold slice
    rw [List.drop_take, List.drop_drop]
    have h1 : i + (j - i) = j := by omega
    have h2 : nxt - i - (j - i) = nxt - j := by omega
    rw [h1, h2]
  rw [hdrop]
  exact mp_take_of tmpl (b1.drop j) (nxt - j) hm (by omega)

/-- After a full pass over a buffer whose every line carries at most one
token of each class, the resulting buffer carries no token at all. -/
lemma loop_clean :
    ∀ (fuel : Nat) (buf : List Char) (i : Nat) (res : AuditMetadata)
      (fl : List (Nat × Nat)), i ≤ buf.length → buf.length ≤ i + fuel →
      (∀ j, j < i → matchesPref ccTemplate (buf.drop j) = false ∧
        matchesPref ssnTemplate (buf.drop j) = false) →
      (∀ ab ∈ segsF fuel buf i,
        atMostOneB ccTemplate (slice buf ab.1 ab.2) = true ∧
          atMostOneB ssnTemplate (slice buf ab.1 ab.2) = true) →
      ∃ buf2 res2 fl2, redactLoopF fuel buf i res fl = .ok (buf2, res2, fl2) ∧
        (∀ j, matchesPref ccTemplate (buf2.drop j) = false ∧
          matchesPref ssnTemplate (buf2.drop j) = false) := by
  intro fuel
  induction fuel with
  | zero =>
    intro buf i res fl hi hf hpre _
    refine ⟨buf, res, fl, rfl, ?_⟩
    intro j
    by_cases hj : j < i
    · exact hpre j hj
    · have hdrop : buf.drop j = [] := List.drop_eq_nil_of_le (by omega)
      rw [hdrop]
      exact ⟨mp_cc_nil, mp_ssn_nil⟩
  | succ fuel ih =>
    intro buf i res fl hi hf hpre hu
    by_cases hlt : i < buf.length
    · have hcn : i ≤ lineEnd buf i := le_of_lt (lineEnd_gt buf i hlt)
      have hn : lineEnd buf i ≤ buf.length := lineEnd_le buf i hi
      have hgt := lineEnd_gt buf i hlt
      have hhead : (i, lineEnd buf i) ∈ segsF (fuel + 1) buf i := by
        rw [segsF, if_pos hlt]
        exact List.mem_cons_self _ _
      obtain ⟨hu1, hu2⟩ := hu (i, lineEnd buf i) hhead
      obtain ⟨buf1, ccb, ssnb, hstep, hlen1, hfr1, hdx1, _, _⟩ :=
        step_main buf i (lineEnd buf i) hcn hn
      have hclean := step_clean buf i (lineEnd buf i) hn hu1 hu2 buf1 ccb ssnb
        hstep
      -- the newline terminating the line survives the overwrites
      have hnl1 : lineEnd buf i = buf1.length ∨
          buf1.getD (lineEnd buf i - 1) ' ' = '\n' := by
        rcases lineEnd_last buf i hlt with hend | hnl
        · left
          omega
        · right
          rcases hdx1.2 (lineEnd buf i - 1) with heq | ⟨hdig, _⟩
          · rw [heq, hnl]
          · rw [hnl] at hdig
            rw [nl_not_digit] at hdig
            cases hdig
      -- the processed region of the new buffer has no matches
      have hpre1 : ∀ j, j < lineEnd buf i →
          matchesPref ccTemplate (buf1.drop j) = false ∧
            matchesPref ssnTemplate (buf1.drop j) = false := by
        intro j hj
        by_cases hjlt : j < i
        · constructor
          · cases hm : matchesPref ccTemplate (buf1.drop j) with
            | false => rfl
            | true =>
              exfalso
              have h0 := digx_nocreate ccTemplate cc_no_xlit buf buf1 hdx1 j hm
              have := (hpre j hjlt).1
              rw [h0] at this
              cases this
          · cases hm : matchesPref ssnTemplate (buf1.drop j) with
            | false => rfl
            | true =>
              exfalso
              have h0 := digx_nocreate ssnTemplate ssn_no_xlit buf buf1 hdx1 j hm
              have := (hpre j hjlt).2
              rw [h0] at this
              cases this
        · have hij : i ≤ j := by omega
          constructor
          · cases hm : matchesPref ccTemplate (buf1.drop j) with
            | false => rfl
            | true =>
              exfalso
              have hfit := match_within_line ccTemplate buf1 (lineEnd buf i) j
                hnl1 cc_no_char_nl hj hm
              have := buf_match_to_slice ccTemplate buf1 i (lineEnd buf i) j
                hij hfit hm
              have hcl := (hclean (j - i)).1
              rw [this] at hcl
              cases hcl
          · cases hm : matchesPref ssnTemplate (buf1.drop j) with
            | false => rfl
            | true =>
              exfalso
              have hfit := match_within_line ssnTemplate buf1 (lineEnd buf i) j
                hnl1 ssn_no_char_nl hj hm
              have := buf_match_to_slice ssnTemplate buf1 i (lineEnd buf i) j
                hij hfit hm
              have hcl := (hclean (j - i)).2
              rw [this] at hcl
              cases hcl
      -- the unprocessed lines of the new buffer still satisfy the
      -- at-most-one-per-class hypothesis
      have hu1' : ∀ ab ∈ segsF fuel buf1 (lineEnd buf i),
          atMostOneB ccTemplate (slice buf1 ab.1 ab.2) = true ∧
            atMostOneB ssnTemplate (slice buf1 ab.1 ab.2) = true := by
        intro ab hab
        have hstab : segsF fuel buf1 (lineEnd buf i) =
            segsF fuel buf (lineEnd buf i) :=
          segsF_stable fuel buf buf1 (lineEnd buf i) hlen1
            (fun k hk => hfr1 k (Or.inr hk))
        rw [hstab] at hab
        obtain ⟨hab1, _, _, _⟩ := segsF_mem fuel buf (lineEnd buf i) ab hab
        have hsl : slice buf1 ab.1 ab.2 = slice buf ab.1 ab.2 :=
          slice_stable buf buf1 ab.1 ab.2 (lineEnd buf i) hlen1
            (fun k hk => hfr1 k (Or.inr hk)) hab1
        rw [hsl]
        refine hu ab ?_
        rw [segsF, if_pos hlt]
        exact List.mem_cons_of_mem _ hab
      obtain ⟨buf2, res2, fl2, heq, hfin⟩ := ih buf1 (lineEnd buf i)
        ⟨res.linesRedacted + (if ccb || ssnb then 1 else 0),
         res.lineCount + 1,
         res.ccRedactions + (if ccb then 1 else 0),
         res.ssnRedactions + (if ssnb then 1 else 0)⟩
        (if ccb || ssnb then fl ++ [(0, buf1.length)] else fl)
        (by omega) (by omega) hpre1 hu1'
      refine ⟨buf2, res2, fl2, ?_, hfin⟩
      rw [redactLoopF, if_pos hlt, hstep]
      exact heq
    · refine ⟨buf, res, fl, by rw [redactLoopF, if_neg hlt], ?_⟩
      intro j
      by_cases hj : j < i
      · exact hpre j hj
      · have hdrop : buf.drop j = [] := List.drop_eq_nil_of_le (by omega)
        rw [hdrop]
        exact ⟨mp_cc_nil, mp_ssn_nil⟩

lemma digx_lineEnd (s t : List Char) (i : Nat) (h : DigX s t) :
    lineEnd t i = lineEnd s i := by
  unfold lineEnd
  have hd := digx_drop s t i h
  have : lineLen (s.drop i) = lineLen (t.drop i) := by
    apply lineLen_congr
    · exact hd.1
    · intro k _
      rcases hd.2 k with heq | ⟨hdig, hx⟩
      · rw [heq]
      · constructor
        · intro hs
          rw [hs, nl_not_digit] at hdig
          cases hdig
        · intro ht
          rw [ht] at hx
          exact absurd hx (by decide)
  omega

/-- Lines of the input on which no class matches are byte-for-byte unchanged
by the whole pass. -/
lemma loop_seg :
    ∀ (fuel : Nat) (buf : List Char) (i : Nat) (res : AuditMetadata)
      (fl : List (Nat × Nat)), i ≤ buf.length → buf.length ≤ i + fuel →
      ∀ (buf2 : List Char) (res2 : AuditMetadata) (fl2 : List (Nat × Nat)),
        redactLoopF fuel buf i res fl = .ok (buf2, res2, fl2) →
        ∀ ab ∈ segsF fuel buf i,
          reSearch ccTemplate (slice buf ab.1 ab.2) = none →
          reSearch ssnTemplate (slice buf ab.1 ab.2) = none →
          slice buf2 ab.1 ab.2 = slice buf ab.1 ab.2 := by
  intro fuel
  induction fuel with
  | zero =>
    intro buf i res fl hi hf buf2 res2 fl2 heq ab hab
    simp [segsF] at hab
  | succ fuel ih =>
    intro buf i res fl hi hf buf2 res2 fl2 heq ab hab hcc hssn
    by_cases hlt : i < buf.length
    · have hcn : i ≤ lineEnd buf i := le_of_lt (lineEnd_gt buf i hlt)
      have hn : lineEnd buf i ≤ buf.length := lineEnd_le buf i hi
      have hgt := lineEnd_gt buf i hlt
      rw [segsF, if_pos hlt] at hab
      rcases List.mem_cons.mp hab with hhd | htl
      · -- the no-match line itself: the step is the identity and the rest of
        -- the loop never writes below its end
        subst hhd
        simp only [] at hcc hssn
        have hstep0 : stepLine buf i (lineEnd buf i) = .ok (buf, false, false) := by
          simp only [stepLine, hcc, hssn]
        have hred : redactLoopF (fuel + 1) buf i res fl =
            redactLoopF fuel buf (lineEnd buf i)
              ⟨res.linesRedacted, res.lineCount + 1, res.ccRedactions,
                res.ssnRedactions⟩ fl := by
          rw [redactLoopF, if_pos hlt, hstep0]
          rfl
        rw [hred] at heq
        obtain ⟨buf2', res2', fl2', heq', hlen', hfr', _, _, _, _, _, _⟩ :=
          loop_main fuel buf (lineEnd buf i)
            ⟨res.linesRedacted, res.lineCount + 1, res.ccRedactions,
              res.ssnRedactions⟩ fl
            (by omega) (by omega)
        rw [heq'] at heq
        simp only [Except.ok.injEq, Prod.mk.injEq] at heq
        obtain ⟨hb2, _, _⟩ := heq
        subst hb2
        apply gd_ext ' '
        · unfold slice
          simp only [List.length_take, List.length_drop, hlen']
        · intro k _
          rw [slice_getD, slice_getD]
          by_cases hk : k < lineEnd buf i - i
          · rw [if_pos hk, if_pos hk, hfr' (i + k) (by omega)]
          · rw [if_neg hk, if_neg hk]
      · -- a later line: the head step writes only inside its own line
        obtain ⟨buf1, ccb, ssnb, hstep, hlen1, hfr1, hdx1, _, _⟩ :=
          step_main buf i (lineEnd buf i) hcn hn
        have hred : redactLoopF (fuel + 1) buf i res fl =
            redactLoopF fuel buf1 (lineEnd buf i)
              ⟨res.linesRedacted + (if ccb || ssnb then 1 else 0),
               res.lineCount + 1,
               res.ccRedactions + (if ccb then 1 else 0),
               res.ssnRedactions + (if ssnb then 1 else 0)⟩
              (if ccb || ssnb then fl ++ [(0, buf1.length)] else fl) := by
          rw [redactLoopF, if_pos hlt, hstep]
        rw [hred] at heq
        have hstab : segsF fuel buf1 (lineEnd buf i) =
            segsF fuel buf (lineEnd buf i) :=
          segsF_stable fuel buf buf1 (lineEnd buf i) hlen1
            (fun k hk => hfr1 k (Or.inr hk))
        obtain ⟨hab1, _, _, _⟩ := segsF_mem fuel buf (lineEnd buf i) ab htl
        have hsl : slice buf1 ab.1 ab.2 = slice buf ab.1 ab.2 :=
          slice_stable buf buf1 ab.1 ab.2 (lineEnd buf i) hlen1
            (fun k hk => hfr1 k (Or.inr hk)) hab1
        have := ih buf1 (lineEnd buf i)
          ⟨res.linesRedacted + (if ccb || ssnb then 1 else 0),
           res.lineCount + 1,
           res.ccRedactions + (if ccb then 1 else 0),
           res.ssnRedactions + (if ssnb then 1 else 0)⟩
          (if ccb || ssnb then fl ++ [(0, buf1.length)] else fl)
          (by omega) (by omega) buf2 res2 fl2 heq ab
          (by rw [hstab]; exact htl)
          (by rw [hsl]; exact hcc) (by rw [hsl]; exact hssn)
        rw [this, hsl]
    · rw [segsF, if_neg hlt] at hab
      simp at hab

/-- One loop iteration changes no byte outside the matched token spans of
its line: any offset outside the credit-card match span and outside the SSN
match span of the line as first read is unchanged. -/
lemma step_frame_spans (buf : List Char) (cur nxt : Nat)
    (hn : nxt ≤ buf.length) (buf1 : List Char) (ccb ssnb : Bool)
    (hstep : stepLine buf cur nxt = .ok (buf1, ccb, ssnb)) :
    ∀ k, ¬ inTokenSpan buf cur nxt k → buf1.getD k ' ' = buf.getD k ' ' := by
  intro k hk
  cases hcc : reSearch ccTemplate (slice buf cur nxt) with
  | none =>
    cases hssn : reSearch ssnTemplate (slice buf cur nxt) with
    | none =>
      simp only [stepLine, hcc, hssn, Except.ok.injEq, Prod.mk.injEq] at hstep
      obtain ⟨h1, _, _⟩ := hstep
      rw [← h1]
    | some q =>
      obtain ⟨t1, t2⟩ := q
      obtain ⟨ht2, hssb, hssm, _⟩ :=
        search_some_spec ssnTemplate buf cur nxt t1 t2 hn ssnT_pos hssn
      have hab : cur + t1 ≤ cur + t2 := by omega
      have hbb : cur + t2 ≤ buf.length := by omega
      have hv : SSN_REPLACE_STR.length = (cur + t2) - (cur + t1) := by
        rw [ssnMask_len, ht2, ssnT_len]
        omega
      have hw := sa_ok buf (cur + t1) (cur + t2) SSN_REPLACE_STR hab hbb hv
      simp only [stepLine, hcc, hssn, hw, Except.ok.injEq, Prod.mk.injEq]
        at hstep
      obtain ⟨h1, _, _⟩ := hstep
      rw [← h1]
      refine sa_frame buf (cur + t1) (cur + t2) SSN_REPLACE_STR hab hbb _ hw k ?_
      by_contra hcon
      push_neg at hcon
      exact hk (Or.inr ⟨t1, t2, hssn, hcon.1, hcon.2⟩)
  | some p =>
    obtain ⟨ms, me⟩ := p
    obtain ⟨hme, hccb, hccm, _⟩ :=
      search_some_spec ccTemplate buf cur nxt ms me hn ccT_pos hcc
    have hab1 : cur + ms ≤ cur + me := by omega
    have hbb1 : cur + me ≤ buf.length := by omega
    have hv1 : CC_REPLACE_STR.length = (cur + me) - (cur + ms) := by
      rw [ccMask_len, hme, ccT_len]
      omega
    have hw1 := sa_ok buf (cur + ms) (cur + me) CC_REPLACE_STR hab1 hbb1 hv1
    set wbuf1 := buf.take (cur + ms) ++ CC_REPLACE_STR ++ buf.drop (cur + me)
      with hwb1
    have hout1 : k < cur + ms ∨ cur + me ≤ k := by
      by_contra hcon
      push_neg at hcon
      exact hk (Or.inl ⟨ms, me, hcc, hcon.1, hcon.2⟩)
    have hfr1 := sa_frame buf (cur + ms) (cur + me) CC_REPLACE_STR hab1 hbb1
      wbuf1 hw1 k hout1
    have hdx1 : DigX buf wbuf1 := by
      refine digx_write ccTemplate CC_REPLACE_STR buf wbuf1 (cur + ms) hccm
        cc_fit ccT_pos ?_
      have he : (cur + ms) + ccTemplate.length = cur + me := by omega
      rw [he]
      exact hw1
    cases hssn1 : reSearch ssnTemplate (slice wbuf1 cur nxt) with
    | none =>
      simp only [stepLine, hcc, hw1, hssn1, Except.ok.injEq, Prod.mk.injEq]
        at hstep
      obtain ⟨h1, _, _⟩ := hstep
      rw [← h1]
      exact hfr1
    | some q =>
      obtain ⟨t1, t2⟩ := q
      have horig : reSearch ssnTemplate (slice buf cur nxt) = some (t1, t2) := by
        cases ho : reSearch ssnTemplate (slice buf cur nxt) with
        | none =>
          exfalso
          have hm1 := (st_some ssnTemplate _ t1
            ((reSearch_some_iff ssnTemplate _ t1 t2).mp hssn1).1).1
          have h0 := digx_nocreate ssnTemplate ssn_no_xlit _ _
            (digx_slice buf wbuf1 cur nxt hdx1) t1 hm1
          rw [reSearch_none_iff] at ho
          have := st_none ssnTemplate _ ho t1
          rw [h0] at this
          cases this
        | some q0 =>
          obtain ⟨u1, u2⟩ := q0
          have hsac := ssn_after_cc buf wbuf1 cur nxt ms me u1 u2 hn hcc ho hw1
          rw [hssn1, Option.some.injEq] at hsac
          rw [hsac]
      have hlen1 : wbuf1.length = buf.length := hdx1.1.symm
      obtain ⟨ht2b, hssb1, hssm1, _⟩ :=
        search_some_spec ssnTemplate wbuf1 cur nxt t1 t2 (by omega) ssnT_pos
          hssn1
      have hab2 : cur + t1 ≤ cur + t2 := by omega
      have hbb2 : cur + t2 ≤ wbuf1.length := by omega
      have hv2 : SSN_REPLACE_STR.length = (cur + t2) - (cur + t1) := by
        rw [ssnMask_len, ht2b, ssnT_len]
        omega
      have hw2 := sa_ok wbuf1 (cur + t1) (cur + t2) SSN_REPLACE_STR hab2 hbb2 hv2
      simp only [stepLine, hcc, hw1, hssn1, hw2, Except.ok.injEq,
        Prod.mk.injEq] at hstep
      obtain ⟨h1, _, _⟩ := hstep
      rw [← h1]
      have hout2 : k < cur + t1 ∨ cur + t2 ≤ k := by
        by_contra hcon
        push_neg at hcon
        exact hk (Or.inr ⟨t1, t2, horig, hcon.1, hcon.2⟩)
      rw [sa_frame wbuf1 (cur + t1) (cur + t2) SSN_REPLACE_STR hab2 hbb2 _ hw2
        k hout2]
      exact hfr1

/-- The whole pass changes no byte outside the matched token spans: for any
line span of the input and any offset of that line lying outside both
matched token spans, the byte is identical before and after the pass. -/
lemma loop_frame_spans :
    ∀ (fuel : Nat) (buf : List Char) (i : Nat) (res : AuditMetadata)
      (fl : List (Nat × Nat)), i ≤ buf.length → buf.length ≤ i + fuel →
      ∀ (buf2 : List Char) (res2 : AuditMetadata) (fl2 : List (Nat × Nat)),
        redactLoopF fuel buf i res fl = .ok (buf2, res2, fl2) →
        ∀ ab ∈ segsF fuel buf i, ∀ k, ab.1 ≤ k → k < ab.2 →
          ¬ inTokenSpan buf ab.1 ab.2 k → buf2.getD k ' ' = buf.getD k ' ' := by
  intro fuel
  induction fuel with
  | zero =>
    intro buf i res fl hi hf buf2 res2 fl2 heq ab hab
    simp [segsF] at hab
  | succ fuel ih =>
    intro buf i res fl hi hf buf2 res2 fl2 heq ab hab k hk1 hk2 hk3
    by_cases hlt : i < buf.length
    · have hcn : i ≤ lineEnd buf i := le_of_lt (lineEnd_gt buf i hlt)
      have hn : lineEnd buf i ≤ buf.length := lineEnd_le buf i hi
      have hgt := lineEnd_gt buf i hlt
      rw [segsF, if_pos hlt] at hab
      obtain ⟨buf1, ccb, ssnb, hstep, hlen1, hfr1, hdx1, _, _⟩ :=
        step_main buf i (lineEnd buf i) hcn hn
      have hred : redactLoopF (fuel + 1) buf i res fl =
          redactLoopF fuel buf1 (lineEnd buf i)
            ⟨res.linesRedacted + (if ccb || ssnb then 1 else 0),
             res.lineCount + 1,
             res.ccRedactions + (if ccb then 1 else 0),
             res.ssnRedactions + (if ssnb then 1 else 0)⟩
            (if ccb || ssnb then fl ++ [(0, buf1.length)] else fl) := by
        rw [redactLoopF, if_pos hlt, hstep]
      rw [hred] at heq
      rcases List.mem_cons.mp hab with hhd | htl
      · subst hhd
        have hk2' : k < lineEnd buf i := hk2
        have hk3' : ¬ inTokenSpan buf i (lineEnd buf i) k := hk3
        have hstepfr := step_frame_spans buf i (lineEnd buf i) hn buf1 ccb ssnb
          hstep k hk3'
        obtain ⟨buf2', res2', fl2', heq', hlen', hfr', _, _, _, _, _, _⟩ :=
          loop_main fuel buf1 (lineEnd buf i)
            ⟨res.linesRedacted + (if ccb || ssnb then 1 else 0),
             res.lineCount + 1,
             res.ccRedactions + (if ccb then 1 else 0),
             res.ssnRedactions + (if ssnb then 1 else 0)⟩
            (if ccb || ssnb then fl ++ [(0, buf1.length)] else fl)
            (by omega) (by omega)
        rw [heq'] at heq
        simp only [Except.ok.injEq, Prod.mk.injEq] at heq
        obtain ⟨hb2, _, _⟩ := heq
        rw [← hb2, hfr' k (by omega)]
        exact hstepfr
      · obtain ⟨hab1, _, _, _⟩ := segsF_mem fuel buf (lineEnd buf i) ab htl
        have hstab : segsF fuel buf1 (lineEnd buf i) =
            segsF fuel buf (lineEnd buf i) :=
          segsF_stable fuel buf buf1 (lineEnd buf i) hlen1
            (fun k2 hk2b => hfr1 k2 (Or.inr hk2b))
        have hsl : slice buf1 ab.1 ab.2 = slice buf ab.1 ab.2 :=
          slice_stable buf buf1 ab.1 ab.2 (lineEnd buf i) hlen1
            (fun k2 hk2b => hfr1 k2 (Or.inr hk2b)) hab1
        have hk3' : ¬ inTokenSpan buf1 ab.1 ab.2 k := by
          unfold inTokenSpan at hk3 ⊢
          rw [hsl]
          exact hk3
        have hrec := ih buf1 (lineEnd buf i)
          ⟨res.linesRedacted + (if ccb || ssnb then 1 else 0),
           res.lineCount + 1,
           res.ccRedactions + (if ccb then 1 else 0),
           res.ssnRedactions + (if ssnb then 1 else 0)⟩
          (if ccb || ssnb then fl ++ [(0, buf1.length)] else fl)
          (by omega) (by omega) buf2 res2 fl2 heq ab
          (by rw [hstab]; exact htl) k hk1 hk2 hk3'
        rw [hrec]
        exact hfr1 k (Or.inr (by omega))
    · rw [segsF, if_neg hlt] at hab
      simp at hab

/-! ### Path handling lemmas -/

lemma lastIdxOf_spec (c : Char) :
    ∀ (l : List Char),
      (lastIdxOf c l = none → ∀ j, j < l.length → l.getD j ' ' ≠ c) ∧
      (∀ i, lastIdxOf c l = some i → i < l.length ∧ l.getD i ' ' = c ∧
        ∀ j, i < j → j < l.length → l.getD j ' ' ≠ c) := by
  intro l
  induction l with
  | nil =>
    refine ⟨fun _ j hj => by simp at hj, fun i hi => by cases hi⟩
  | cons x xs ih =>
    constructor
    · intro hnone j hj
      rw [lastIdxOf] at hnone
      cases hx : lastIdxOf c xs with
      | some i =>
        rw [hx] at hnone
        cases hnone
      | none =>
        rw [hx] at hnone
        by_cases hxc : x = c
        · rw [if_pos hxc] at hnone
          cases hnone
        · rw [if_neg hxc] at hnone
          cases j with
          | zero => simpa using hxc
          | succ j =>
            have := ih.1 hx j (by simpa using hj)
            simpa using this
    · intro i hi
      rw [lastIdxOf] at hi
      cases hx : lastIdxOf c xs with
      | some i0 =>
        rw [hx, Option.some.injEq] at hi
        subst hi
        obtain ⟨h1, h2, h3⟩ := ih.2 i0 hx
        refine ⟨by simpa using Nat.succ_lt_succ h1, by simpa using h2, ?_⟩
        intro j hji hjl
        cases j with
        | zero => omega
        | succ j =>
          have := h3 j (by omega) (by simpa using hjl)
          simpa using this
      | none =>
        rw [hx] at hi
        by_cases hxc : x = c
        · rw [if_pos hxc, Option.some.injEq] at hi
          subst hi
          refine ⟨by simp, by simpa using hxc, ?_⟩
          intro j hji hjl
          cases j with
          | zero => omega
          | succ j =>
            have := ih.1 hx j (by simpa using hjl)
            simpa using this
        · rw [if_neg hxc] at hi
          cases hi

lemma splitext_ext (p : List Char) (hne : (splitext p).2 ≠ []) :
    ∃ d, d < p.length ∧ (splitext p).1 = p.take d ∧ (splitext p).2 = p.drop d ∧
      p.getD d ' ' = '.' ∧ ∀ j, d < j → j < p.length → p.getD j ' ' ≠ '.' := by
  cases hd : lastIdxOf '.' p with
  | none =>
    exfalso
    cases hs : lastIdxOf '/' p with
    | none =>
      simp only [splitext, hd, hs] at hne
      rw [if_neg (show ¬ ((-1 : Int) < -1) by omega)] at hne
      exact hne rfl
    | some s =>
      simp only [splitext, hd, hs] at hne
      rw [if_neg (show ¬ ((s : Int) < -1) by omega)] at hne
      exact hne rfl
  | some d =>
    obtain ⟨hdlen, hdc, hdlast⟩ := (lastIdxOf_spec '.' p).2 d hd
    have htoN : ((d : Nat) : Int).toNat = d := by omega
    cases hs : lastIdxOf '/' p with
    | none =>
      simp only [splitext, hd, hs] at hne ⊢
      rw [if_pos (show (-1 : Int) < (d : Nat) by omega)] at hne ⊢
      split at hne
      · rename_i hscan
        rw [if_pos hscan, htoN]
        exact ⟨d, hdlen, rfl, rfl, hdc, hdlast⟩
      · exact absurd rfl hne
    | some s =>
      simp only [splitext, hd, hs] at hne ⊢
      by_cases hc : ((s : Nat) : Int) < ((d : Nat) : Int)
      · rw [if_pos hc] at hne ⊢
        split at hne
        · rename_i hscan
          rw [if_pos hscan, htoN]
          exact ⟨d, hdlen, rfl, rfl, hdc, hdlast⟩
        · exact absurd rfl hne
      · rw [if_neg hc] at hne
        exact absurd rfl hne

/-! ### Claim theorems -/

/-- C1: for every line of the mapped file carrying both a well-formed
credit-card token and a well-formed SSN token, `redact_data` overwrites both
tokens with their masks; the SSN match is re-computed against the line as it
exists after the credit-card overwrite (the live view re-read of source
line 134) and lands at the same span, so neither mask is written at a stale
offset. -/
theorem claim_C1_both_tokens_redacted (buf : List Char) (cur ms me t1 t2 : Nat)
    (hcur : cur ≤ buf.length)
    (hcc : reSearch ccTemplate (slice buf cur (lineEnd buf cur)) = some (ms, me))
    (hssn : reSearch ssnTemplate (slice buf cur (lineEnd buf cur)) =
      some (t1, t2)) :
    ∃ buf1 buf2,
      sliceAssign buf (cur + ms) (cur + me) CC_REPLACE_STR = .ok buf1 ∧
      reSearch ssnTemplate (slice buf1 cur (lineEnd buf cur)) = some (t1, t2) ∧
      stepLine buf cur (lineEnd buf cur) = .ok (buf2, true, true) ∧
      buf2.length = buf.length ∧
      (∀ k, k < 24 → buf2.getD (cur + ms + k) ' ' = CC_REPLACE_STR.getD k ' ') ∧
      (∀ k, k < 17 → buf2.getD (cur + t1 + k) ' ' = SSN_REPLACE_STR.getD k ' ') := by
  have hn : lineEnd buf cur ≤ buf.length := lineEnd_le buf cur hcur
  obtain ⟨hme, hccb, hccm, _⟩ :=
    search_some_spec ccTemplate buf cur (lineEnd buf cur) ms me hn ccT_pos hcc
  obtain ⟨ht2, hssb, hssm, _⟩ :=
    search_some_spec ssnTemplate buf cur (lineEnd buf cur) t1 t2 hn ssnT_pos hssn
  have hab1 : cur + ms ≤ cur + me := by omega
  have hbb1 : cur + me ≤ buf.length := by omega
  have hv1 : CC_REPLACE_STR.length = (cur + me) - (cur + ms) := by
    rw [ccMask_len, hme, ccT_len]
    omega
  have hw1 := sa_ok buf (cur + ms) (cur + me) CC_REPLACE_STR hab1 hbb1 hv1
  set wbuf1 := buf.take (cur + ms) ++ CC_REPLACE_STR ++ buf.drop (cur + me)
    with hwb1
  have hssn1 := ssn_after_cc buf wbuf1 cur (lineEnd buf cur) ms me t1 t2 hn hcc
    hssn hw1
  have hlen1 : wbuf1.length = buf.length :=
    (sa_ok_len buf (cur + ms) (cur + me) CC_REPLACE_STR hab1 hbb1 wbuf1 hw1).2
  have hn1 : lineEnd buf cur ≤ wbuf1.length := by omega
  obtain ⟨ht2b, hssb1, hssm1, _⟩ :=
    search_some_spec ssnTemplate wbuf1 cur (lineEnd buf cur) t1 t2 hn1 ssnT_pos
      hssn1
  have hab2 : cur + t1 ≤ cur + t2 := by omega
  have hbb2 : cur + t2 ≤ wbuf1.length := by omega
  have hv2 : SSN_REPLACE_STR.length = (cur + t2) - (cur + t1) := by
    rw [ssnMask_len, ht2, ssnT_len]
    omega
  have hw2 := sa_ok wbuf1 (cur + t1) (cur + t2) SSN_REPLACE_STR hab2 hbb2 hv2
  set wbuf2 := wbuf1.take (cur + t1) ++ SSN_REPLACE_STR ++ wbuf1.drop (cur + t2)
    with hwb2
  have hstep : stepLine buf cur (lineEnd buf cur) = .ok (wbuf2, true, true) := by
    simp only [stepLine, hcc, hw1, hssn1, hw2]
  have hlen2 : wbuf2.length = wbuf1.length :=
    (sa_ok_len wbuf1 (cur + t1) (cur + t2) SSN_REPLACE_STR hab2 hbb2 wbuf2 hw2).2
  have hstC := (st_some ccTemplate _ ms
    ((reSearch_some_iff ccTemplate _ ms me).mp hcc).1).1
  have hstS := (st_some ssnTemplate _ t1
    ((reSearch_some_iff ssnTemplate _ t1 t2).mp hssn).1).1
  have hdisj := cc_ssn_disjoint (slice buf cur (lineEnd buf cur)) ms t1 hstC hstS
  rw [ccT_len] at hme
  rw [ssnT_len] at ht2
  refine ⟨wbuf1, wbuf2, hw1, hssn1, hstep, by omega, ?_, ?_⟩
  · intro k hk
    have hout : cur + ms + k < cur + t1 ∨ cur + t2 ≤ cur + ms + k := by
      rcases hdisj with hd | hd
      · right
        omega
      · left
        omega
    rw [sa_frame wbuf1 (cur + t1) (cur + t2) SSN_REPLACE_STR hab2 hbb2 wbuf2 hw2
      (cur + ms + k) hout]
    rw [sa_mask buf (cur + ms) (cur + me) CC_REPLACE_STR hab1 hbb1 wbuf1 hw1
      (cur + ms + k) (by omega) (by omega)]
    congr 1
    omega
  · intro k hk
    rw [sa_mask wbuf1 (cur + t1) (cur + t2) SSN_REPLACE_STR hab2 hbb2 wbuf2 hw2
      (cur + t1 + k) (by omega) (by omega)]
    congr 1
    omega

/-- Witness for C1 at the spec's two-token scenario line. -/
theorem claim_C1_witness :
    ∃ buf1 buf2,
      sliceAssign "SSN=\"123-45-6789\" CC=\"1111-2222-3333-4444\"\n".toList
        (0 + 18) (0 + 42) CC_REPLACE_STR = .ok buf1 ∧
      reSearch ssnTemplate (slice buf1 0
        (lineEnd "SSN=\"123-45-6789\" CC=\"1111-2222-3333-4444\"\n".toList 0)) =
        some (0, 17) ∧
      stepLine "SSN=\"123-45-6789\" CC=\"1111-2222-3333-4444\"\n".toList 0
        (lineEnd "SSN=\"123-45-6789\" CC=\"1111-2222-3333-4444\"\n".toList 0) =
        .ok (buf2, true, true) ∧
      buf2.length =
        ("SSN=\"123-45-6789\" CC=\"1111-2222-3333-4444\"\n".toList).length ∧
      (∀ k, k < 24 → buf2.getD (0 + 18 + k) ' ' = CC_REPLACE_STR.getD k ' ') ∧
      (∀ k, k < 17 → buf2.getD (0 + 0 + k) ' ' = SSN_REPLACE_STR.getD k ' ') :=
  claim_C1_both_tokens_redacted
    "SSN=\"123-45-6789\" CC=\"1111-2222-3333-4444\"\n".toList 0 18 42 0 17
    (by omega) (by rfl) (by rfl)

/-- C2: for every line carrying a well-formed credit-card token and no SSN
token, the pass writes the literal mask at the byte offset where the token
started and leaves both the buffer length and the line length unchanged. -/
theorem claim_C2_cc_mask_in_place (buf : List Char) (cur ms me : Nat)
    (hcur : cur ≤ buf.length)
    (hcc : reSearch ccTemplate (slice buf cur (lineEnd buf cur)) = some (ms, me))
    (hssn : reSearch ssnTemplate (slice buf cur (lineEnd buf cur)) = none) :
    ∃ buf1, stepLine buf cur (lineEnd buf cur) = .ok (buf1, true, false) ∧
      buf1.length = buf.length ∧
      lineEnd buf1 cur = lineEnd buf cur ∧
      (∀ k, k < 24 → buf1.getD (cur + ms + k) ' ' = CC_REPLACE_STR.getD k ' ') := by
  have hn : lineEnd buf cur ≤ buf.length := lineEnd_le buf cur hcur
  obtain ⟨hme, hccb, hccm, _⟩ :=
    search_some_spec ccTemplate buf cur (lineEnd buf cur) ms me hn ccT_pos hcc
  have hab1 : cur + ms ≤ cur + me := by omega
  have hbb1 : cur + me ≤ buf.length := by omega
  have hv1 : CC_REPLACE_STR.length = (cur + me) - (cur + ms) := by
    rw [ccMask_len, hme, ccT_len]
    omega
  have hw1 := sa_ok buf (cur + ms) (cur + me) CC_REPLACE_STR hab1 hbb1 hv1
  set wbuf1 := buf.take (cur + ms) ++ CC_REPLACE_STR ++ buf.drop (cur + me)
    with hwb1
  have hdx1 : DigX buf wbuf1 := by
    refine digx_write ccTemplate CC_REPLACE_STR buf wbuf1 (cur + ms) hccm cc_fit
      ccT_pos ?_
    have he : (cur + ms) + ccTemplate.length = cur + me := by omega
    rw [he]
    exact hw1
  have hssn1 : reSearch ssnTemplate (slice wbuf1 cur (lineEnd buf cur)) = none := by
    cases hq : reSearch ssnTemplate (slice wbuf1 cur (lineEnd buf cur)) with
    | none => rfl
    | some q =>
      exfalso
      obtain ⟨u1, u2⟩ := q
      have hm := (st_some ssnTemplate _ u1
        ((reSearch_some_iff ssnTemplate _ u1 u2).mp hq).1).1
      have h0 := digx_nocreate ssnTemplate ssn_no_xlit _ _
        (digx_slice buf wbuf1 cur (lineEnd buf cur) hdx1) u1 hm
      rw [reSearch_none_iff] at hssn
      have := st_none ssnTemplate _ hssn u1
      rw [h0] at this
      cases this
  refine ⟨wbuf1, ?_, ?_, digx_lineEnd buf wbuf1 cur hdx1, ?_⟩
  · simp only [stepLine, hcc, hw1, hssn1]
  · exact (sa_ok_len buf (cur + ms) (cur + me) CC_REPLACE_STR hab1 hbb1 wbuf1
      hw1).2
  · intro k hk
    rw [sa_mask buf (cur + ms) (cur + me) CC_REPLACE_STR hab1 hbb1 wbuf1 hw1
      (cur + ms + k) (by omega) (by rw [ccT_len] at hme; omega)]
    congr 1
    omega

/-- Witness for C2 at the spec's end-to-end scenario line. -/
theorem claim_C2_witness :
    ∃ buf1, stepLine "user=42 CC=\"1234-5678-9012-3456\" action=login\n".toList
      0 (lineEnd "user=42 CC=\"1234-5678-9012-3456\" action=login\n".toList 0) =
        .ok (buf1, true, false) ∧
      buf1.length =
        ("user=42 CC=\"1234-5678-9012-3456\" action=login\n".toList).length ∧
      lineEnd buf1 0 =
        lineEnd "user=42 CC=\"1234-5678-9012-3456\" action=login\n".toList 0 ∧
      (∀ k, k < 24 → buf1.getD (0 + 8 + k) ' ' = CC_REPLACE_STR.getD k ' ') :=
  claim_C2_cc_mask_in_place
    "user=42 CC=\"1234-5678-9012-3456\" action=login\n".toList 0 8 32
    (by omega) (by rfl) (by rfl)

/-- C3: `redact_data` changes no byte outside the matched token spans.
Three parts: the pass never changes the file's byte length; a line with no
matching token is byte-for-byte identical before and after the whole pass;
and on every line, every byte offset outside the credit-card match span and
outside the SSN match span of that line is identical before and after the
whole pass. -/
theorem claim_C3_frame :
    (∀ (buf buf2 : List Char) (res : AuditMetadata) (fl : List (Nat × Nat)),
      redact_data buf = .ok (buf2, res, fl) → buf2.length = buf.length) ∧
    (∀ (buf : List Char) (ab : Nat × Nat) (buf2 : List Char)
      (res : AuditMetadata) (fl : List (Nat × Nat)), ab ∈ segs buf →
      reSearch ccTemplate (slice buf ab.1 ab.2) = none →
      reSearch ssnTemplate (slice buf ab.1 ab.2) = none →
      redact_data buf = .ok (buf2, res, fl) →
      slice buf2 ab.1 ab.2 = slice buf ab.1 ab.2) ∧
    (∀ (buf : List Char) (ab : Nat × Nat) (buf2 : List Char)
      (res : AuditMetadata) (fl : List (Nat × Nat)), ab ∈ segs buf →
      redact_data buf = .ok (buf2, res, fl) →
      ∀ k, ab.1 ≤ k → k < ab.2 → ¬ inTokenSpan buf ab.1 ab.2 k →
      buf2.getD k ' ' = buf.getD k ' ') := by
  refine ⟨?_, ?_, ?_⟩
  · intro buf buf2 res fl h
    unfold redact_data at h
    obtain ⟨b2, r2, f2, heq, hlen, _, _, _, _, _, _, _⟩ :=
      loop_main (buf.length + 1) buf 0 initMeta [] (by omega) (by omega)
    rw [h] at heq
    simp only [Except.ok.injEq, Prod.mk.injEq] at heq
    obtain ⟨hb, _, _⟩ := heq
    rw [← hb] at hlen
    exact hlen
  · intro buf ab buf2 res fl hab hcc hssn h
    unfold redact_data at h
    exact loop_seg (buf.length + 1) buf 0 initMeta [] (by omega) (by omega)
      buf2 res fl h ab hab hcc hssn
  · intro buf ab buf2 res fl hab h k hk1 hk2 hk3
    unfold redact_data at h
    exact loop_frame_spans (buf.length + 1) buf 0 initMeta [] (by omega)
      (by omega) buf2 res fl h ab hab k hk1 hk2 hk3

/-- Witness for C3: a pass over a file with a credit-card line followed by a
token-free line keeps the size, the token-free line, and the byte just past
the redacted line's token span (its newline, offset 24) unchanged. -/
theorem claim_C3_witness :
    ("CC=\"xxxx-xxxx-xxxx-xxxx\"\nhello\n".toList).length =
      ("CC=\"1234-5678-9012-3456\"\nhello\n".toList).length ∧
    slice "CC=\"xxxx-xxxx-xxxx-xxxx\"\nhello\n".toList 25 31 =
      slice "CC=\"1234-5678-9012-3456\"\nhello\n".toList 25 31 ∧
    ("CC=\"xxxx-xxxx-xxxx-xxxx\"\nhello\n".toList).getD 24 ' ' =
      ("CC=\"1234-5678-9012-3456\"\nhello\n".toList).getD 24 ' ' :=
  ⟨claim_C3_frame.1 "CC=\"1234-5678-9012-3456\"\nhello\n".toList
      "CC=\"xxxx-xxxx-xxxx-xxxx\"\nhello\n".toList ⟨1, 3, 1, 0⟩ [(0, 31)]
      (by rfl),
   claim_C3_frame.2.1 "CC=\"1234-5678-9012-3456\"\nhello\n".toList (25, 31)
      "CC=\"xxxx-xxxx-xxxx-xxxx\"\nhello\n".toList ⟨1, 3, 1, 0⟩ [(0, 31)]
      (by decide) (by rfl) (by rfl) (by rfl),
   claim_C3_frame.2.2 "CC=\"1234-5678-9012-3456\"\nhello\n".toList (0, 25)
      "CC=\"xxxx-xxxx-xxxx-xxxx\"\nhello\n".toList ⟨1, 3, 1, 0⟩ [(0, 31)]
      (by decide) (by rfl) 24 (by omega) (by omega)
      (by
        intro hin
        unfold inTokenSpan at hin
        rcases hin with ⟨ms, me, hm, hp1, hp2⟩ | ⟨t1, t2, hm, hp1, hp2⟩
        · have hval : reSearch ccTemplate
              (slice "CC=\"1234-5678-9012-3456\"\nhello\n".toList 0 25) =
              some (0, 24) := by rfl
          rw [hval, Option.some.injEq, Prod.mk.injEq] at hm
          omega
        · have hval : reSearch ssnTemplate
              (slice "CC=\"1234-5678-9012-3456\"\nhello\n".toList 0 25) =
              none := by rfl
          rw [hval] at hm
          cases hm)⟩

/-- C4 as stated is false: on a line with two SSN tokens the first pass
redacts only the leftmost one, and the second pass redacts the survivor,
reporting one SSN redaction and one redacted line instead of zero. -/
theorem claim_C4_counterexample :
    (secondPass "SSN=\"111-11-1111\" SSN=\"222-22-2222\"".toList).map
      (fun r => (r.ssnRedactions, r.linesRedacted)) = some (1, 1) := by rfl

/-- C4 amended: under the source's one-token-per-class-per-line assumption
(header assumption 5), a second pass over the output of a first pass changes
no byte, reports zero credit-card redactions, zero SSN redactions and zero
redacted lines, and issues no flush. -/
theorem claim_C4_amended (buf buf1 : List Char) (res1 : AuditMetadata)
    (fl1 : List (Nat × Nat)) (honce : oncePerLineB buf = true)
    (h : redact_data buf = .ok (buf1, res1, fl1)) :
    ∃ lc2, redact_data buf1 = .ok (buf1, ⟨0, lc2, 0, 0⟩, []) := by
  unfold redact_data at h
  have hu : ∀ ab ∈ segsF (buf.length + 1) buf 0,
      atMostOneB ccTemplate (slice buf ab.1 ab.2) = true ∧
        atMostOneB ssnTemplate (slice buf ab.1 ab.2) = true := by
    intro ab hab
    have hmem : slice buf ab.1 ab.2 ∈ linesOf buf := by
      unfold linesOf segs
      exact List.mem_map_of_mem _ hab
    unfold oncePerLineB at honce
    have := List.all_eq_true.mp honce _ hmem
    rw [Bool.and_eq_true] at this
    exact this
  obtain ⟨b2, r2, f2, heq, hclean⟩ :=
    loop_clean (buf.length + 1) buf 0 initMeta [] (by omega) (by omega)
      (by omega) hu
  rw [h] at heq
  simp only [Except.ok.injEq, Prod.mk.injEq] at heq
  obtain ⟨hb, _, _⟩ := heq
  rw [← hb] at hclean
  obtain ⟨lc2, hpass⟩ := loop_clean_pass (buf1.length + 1) buf1 0 initMeta []
    (by omega) (by omega) (fun j => (hclean j).1) (fun j => (hclean j).2)
  exact ⟨lc2, hpass⟩

/-- Witness for the amended C4 at a one-token file. -/
theorem claim_C4_witness :
    ∃ lc2, redact_data "SSN=\"xxx-xx-xxxx\"\n".toList =
      .ok ("SSN=\"xxx-xx-xxxx\"\n".toList, ⟨0, lc2, 0, 0⟩, []) :=
  claim_C4_amended "SSN=\"123-45-6789\"\n".toList "SSN=\"xxx-xx-xxxx\"\n".toList
    ⟨1, 2, 0, 1⟩ [(0, 18)] (by rfl) (by rfl)

/-- C5: the counters of every pass satisfy
linesRedacted ≤ linesProcessed and
linesRedacted ≤ creditCardRedactions + ssnRedactions, the latter an equality
exactly when no line of the file carries both token classes. -/
theorem claim_C5_counters (buf buf2 : List Char) (res : AuditMetadata)
    (fl : List (Nat × Nat)) (h : redact_data buf = .ok (buf2, res, fl)) :
    res.linesRedacted ≤ res.lineCount ∧
    res.linesRedacted ≤ res.ccRedactions + res.ssnRedactions ∧
    (res.linesRedacted = res.ccRedactions + res.ssnRedactions ↔
      ∀ l ∈ linesOf buf, hasBoth l = false) := by
  unfold redact_data at h
  obtain ⟨b2, r2, f2, heq, _, _, hlc, _, hbound, hcnt, _, _⟩ :=
    loop_main (buf.length + 1) buf 0 initMeta [] (by omega) (by omega)
  rw [h] at heq
  simp only [Except.ok.injEq, Prod.mk.injEq] at heq
  obtain ⟨hb, hr, hf⟩ := heq
  subst hr
  have h1 : initMeta.linesRedacted = 0 := rfl
  have h2 : initMeta.lineCount = 1 := rfl
  have h3 : initMeta.ccRedactions = 0 := rfl
  have h4 : initMeta.ssnRedactions = 0 := rfl
  have hkey := both_count (buf.length + 1) buf 0 (by omega) (by omega)
  refine ⟨by omega, by omega, ?_⟩
  constructor
  · intro hlreq l hl
    unfold linesOf segs at hl
    obtain ⟨ab, hab, habeq⟩ := List.mem_map.mp hl
    rw [← habeq]
    cases hbq : hasBoth (slice buf ab.1 ab.2) with
    | false => rfl
    | true =>
      exfalso
      have hmem : ab ∈ (segsF (buf.length + 1) buf 0).filter
          (fun ab => hasBoth (slice buf ab.1 ab.2)) :=
        List.mem_filter.mpr ⟨hab, hbq⟩
      have hpos : 0 < ((segsF (buf.length + 1) buf 0).filter
          (fun ab => hasBoth (slice buf ab.1 ab.2))).length :=
        List.length_pos.mpr (List.ne_nil_of_mem hmem)
      omega
  · intro hall
    have hz : (segsF (buf.length + 1) buf 0).filter
        (fun ab => hasBoth (slice buf ab.1 ab.2)) = [] := by
      rw [List.filter_eq_nil]
      intro ab hab
      have : slice buf ab.1 ab.2 ∈ linesOf buf := by
        unfold linesOf segs
        exact List.mem_map_of_mem _ hab
      rw [hall _ this]
      simp
    rw [hz] at hkey
    simp only [List.length_nil] at hkey
    omega

/-- Witness for C5 at a file with a two-token line and a token-free line. -/
theorem claim_C5_witness :
    (⟨1, 3, 1, 1⟩ : AuditMetadata).linesRedacted ≤
      (⟨1, 3, 1, 1⟩ : AuditMetadata).lineCount ∧
    (⟨1, 3, 1, 1⟩ : AuditMetadata).linesRedacted ≤
      (⟨1, 3, 1, 1⟩ : AuditMetadata).ccRedactions +
        (⟨1, 3, 1, 1⟩ : AuditMetadata).ssnRedactions ∧
    ((⟨1, 3, 1, 1⟩ : AuditMetadata).linesRedacted =
        (⟨1, 3, 1, 1⟩ : AuditMetadata).ccRedactions +
          (⟨1, 3, 1, 1⟩ : AuditMetadata).ssnRedactions ↔
      ∀ l ∈ linesOf
        "SSN=\"123-45-6789\" CC=\"1111-2222-3333-4444\"\nplain\n".toList,
        hasBoth l = false) :=
  claim_C5_counters
    "SSN=\"123-45-6789\" CC=\"1111-2222-3333-4444\"\nplain\n".toList
    "SSN=\"xxx-xx-xxxx\" CC=\"xxxx-xxxx-xxxx-xxxx\"\nplain\n".toList
    ⟨1, 3, 1, 1⟩ [(0, 49)] (by rfl)

/-- C6: the TOTAL_LINES_PROCESSED value `redact_data` returns is the number
of lines plus one, because `line_count` starts at 1 (source line 120) and is
additionally incremented once per line (source line 148); the claim and the
source's own docstring say it equals the number of lines. -/
theorem claim_C6_linecount_off_by_one (buf buf2 : List Char)
    (res : AuditMetadata) (fl : List (Nat × Nat))
    (h : redact_data buf = .ok (buf2, res, fl)) :
    res.lineCount = countLines buf + 1 := by
  unfold redact_data at h
  obtain ⟨b2, r2, f2, heq, _, _, hlc, _, _, _, _, _⟩ :=
    loop_main (buf.length + 1) buf 0 initMeta [] (by omega) (by omega)
  rw [h] at heq
  simp only [Except.ok.injEq, Prod.mk.injEq] at heq
  obtain ⟨_, hr, _⟩ := heq
  subst hr
  have h2 : initMeta.lineCount = 1 := rfl
  have hcl : countLines buf = (segsF (buf.length + 1) buf 0).length := rfl
  omega

/-- Witness for C6: a one-line file is reported as two lines processed. -/
theorem claim_C6_witness :
    (⟨0, 2, 0, 0⟩ : AuditMetadata).lineCount = countLines "a\n".toList + 1 :=
  claim_C6_linecount_off_by_one "a\n".toList "a\n".toList ⟨0, 2, 0, 0⟩ []
    (by rfl)

/-- C7: every overwrite of `redact_data` goes through the length-checked
slice assignment: a replacement whose byte length differs from the span's
length makes the operation fail with the LayoutViolation error without
writing, and a successful assignment implies the lengths agreed and the
buffer size is unchanged, so no overwrite can silently truncate or pad. -/
theorem claim_C7_layout_check (s : List Char) (a b : Nat) (v : List Char)
    (hab : a ≤ b) (hb : b ≤ s.length) :
    (v.length ≠ b - a → sliceAssign s a b v = .error .layoutViolation) ∧
    (∀ r, sliceAssign s a b v = .ok r →
      v.length = b - a ∧ r.length = s.length) :=
  ⟨sa_err s a b v hab hb, fun r h => sa_ok_len s a b v hab hb r h⟩

/-- Witness for C7 at a concrete buffer and span. -/
theorem claim_C7_witness :
    (("xyz".toList).length ≠ 3 - 1 →
      sliceAssign "abcd".toList 1 3 "xyz".toList = .error .layoutViolation) ∧
    (∀ r, sliceAssign "abcd".toList 1 3 "xyz".toList = .ok r →
      ("xyz".toList).length = 3 - 1 ∧ r.length = ("abcd".toList).length) :=
  claim_C7_layout_check "abcd".toList 1 3 "xyz".toList (by omega) (by decide)

/-- C8 as stated is false: the flush after a redacted line commits the whole
mapping, not only the modified page range.  On a 30-byte file whose only
token sits in its first 24 bytes, the single flush event spans all 30 bytes
even though the trailing token-free line is untouched. -/
theorem claim_C8_counterexample :
    redact_data "CC=\"1234-5678-9012-3456\"\nhello".toList =
      .ok ("CC=\"xxxx-xxxx-xxxx-xxxx\"\nhello".toList, ⟨1, 3, 1, 0⟩,
        [(0, 30)]) ∧
    ("CC=\"1234-5678-9012-3456\"\nhello".toList).length = 30 ∧
    slice "CC=\"xxxx-xxxx-xxxx-xxxx\"\nhello".toList 24 30 =
      slice "CC=\"1234-5678-9012-3456\"\nhello".toList 24 30 :=
  ⟨by rfl, by rfl, by rfl⟩

/-- C8 amended: one whole-mapping flush is issued per redacted line — the
flush count equals linesRedacted, every flush spans the entire mapping, and
a line with no match issues no flush. -/
theorem claim_C8_flush_per_line (buf buf2 : List Char) (res : AuditMetadata)
    (fl : List (Nat × Nat)) (h : redact_data buf = .ok (buf2, res, fl)) :
    fl.length = res.linesRedacted ∧ ∀ e ∈ fl, e = (0, buf.length) := by
  unfold redact_data at h
  obtain ⟨b2, r2, f2, heq, _, _, _, _, _, _, hfl, hflm⟩ :=
    loop_main (buf.length + 1) buf 0 initMeta [] (by omega) (by omega)
  rw [h] at heq
  simp only [Except.ok.injEq, Prod.mk.injEq] at heq
  obtain ⟨_, hr, hf⟩ := heq
  subst hr
  subst hf
  have h1 : initMeta.linesRedacted = 0 := rfl
  refine ⟨by simp only [List.length_nil] at hfl; omega, ?_⟩
  intro e he
  rcases hflm e he with hin | heq2
  · simp at hin
  · exact heq2

/-- Witness for the amended C8. -/
theorem claim_C8_witness :
    ([(0, 30)] : List (Nat × Nat)).length =
      (⟨1, 3, 1, 0⟩ : AuditMetadata).linesRedacted ∧
    ∀ e ∈ ([(0, 30)] : List (Nat × Nat)),
      e = (0, ("CC=\"1234-5678-9012-3456\"\nhello".toList).length) :=
  claim_C8_flush_per_line "CC=\"1234-5678-9012-3456\"\nhello".toList
    "CC=\"xxxx-xxxx-xxxx-xxxx\"\nhello".toList ⟨1, 3, 1, 0⟩ [(0, 30)] (by rfl)

/-- C9 as stated is false: `clean_files` collects job outcomes in submission
order and the first `get` that re-raises a worker failure aborts the
collection, so a sibling's outcome is never collected.  With two jobs whose
first fails, only one outcome is collected. -/
theorem claim_C9_counterexample :
    cleanFilesRun [.error .ioFailure, .ok initMeta] = (.error .ioFailure, 1) ∧
    ([Except.error Err.ioFailure, Except.ok initMeta] :
      List (Except Err AuditMetadata)).length = 2 :=
  ⟨rfl, rfl⟩

/-- C9 amended: `clean_files` waits on jobs in submission order; if every
job succeeded it returns after collecting all outcomes, and the first failed
job makes it exit with that failure after collecting only the outcomes up to
and including the failing one. -/
theorem claim_C9_first_failure_aborts :
    (∀ rs : List (Except Err AuditMetadata),
      (∀ r ∈ rs, ∃ m, r = .ok m) → cleanFilesRun rs = (.ok (), rs.length)) ∧
    (∀ (pre post : List (Except Err AuditMetadata)) (e : Err),
      (∀ r ∈ pre, ∃ m, r = .ok m) →
      cleanFilesRun (pre ++ .error e :: post) = (.error e, pre.length + 1)) := by
  constructor
  · intro rs
    induction rs with
    | nil => intro _; rfl
    | cons r rest ih =>
      intro hall
      obtain ⟨m, hm⟩ := hall r (List.mem_cons_self _ _)
      subst hm
      simp only [cleanFilesRun]
      rw [ih (fun r hr => hall r (List.mem_cons_of_mem _ hr))]
      rfl
  · intro pre
    induction pre with
    | nil => intro post e _; rfl
    | cons r rest ih =>
      intro post e hall
      obtain ⟨m, hm⟩ := hall r (List.mem_cons_self _ _)
      subst hm
      simp only [List.cons_append, cleanFilesRun, List.append_eq]
      rw [ih post e (fun r hr => hall r (List.mem_cons_of_mem _ hr))]
      rfl

/-- Witness for the amended C9: a success followed by a failure yields the
failure, with both outcomes collected. -/
theorem claim_C9_witness :
    cleanFilesRun [Except.ok initMeta, Except.error Err.ioFailure] =
      (.error .ioFailure, 2) :=
  claim_C9_first_failure_aborts.2 [Except.ok initMeta] [] Err.ioFailure
    (fun r hr => ⟨initMeta, List.mem_singleton.mp hr⟩)

/-- C10 as stated is false: for an archive path with no extension,
`os.path.splitext` returns the path itself, so `decompress_file` opens the
original archive's path for writing and overwrites it. -/
theorem claim_C10_counterexample :
    decompressName "archive".toList = "archive".toList ∧
    (splitext "archive".toList).2 = [] :=
  ⟨rfl, rfl⟩

/-- C10 amended: for every input path carrying a nonempty extension (the
documented .gz inputs), the decompressed copy goes to a path distinct from
the archive, and the recompressed archive path, formed with the distinct
suffix .redacted.gz, also differs from the original archive path. -/
theorem claim_C10_distinct_paths (p : List Char)
    (hne : (splitext p).2 ≠ []) :
    decompressName p ≠ p ∧ compressName (decompressName p) ≠ p := by
  obtain ⟨d, hdlen, h1, h2, hdc, hdlast⟩ := splitext_ext p hne
  constructor
  · unfold decompressName
    rw [h1]
    intro hcon
    have := congrArg List.length hcon
    simp only [List.length_take] at this
    omega
  · unfold compressName decompressName
    rw [h1]
    intro hcon
    have hsplit : p.take d ++ p.drop d = p := List.take_append_drop d p
    have hcat : p.take d ++ ".redacted.gz".toList = p.take d ++ p.drop d := by
      rw [hsplit]
      exact hcon
    have hsuffix : ".redacted.gz".toList = p.drop d :=
      List.append_cancel_left hcat
    have h9 : (p.drop d).getD 9 ' ' = '.' := by
      rw [← hsuffix]
      decide
    rw [gd_drop] at h9
    have hlen : (p.drop d).length = 12 := by
      rw [← hsuffix]
      rfl
    simp only [List.length_drop] at hlen
    exact hdlast (d + 9) (by omega) (by omega) h9

/-- Witness for the amended C10 at a .gz-named archive. -/
theorem claim_C10_witness :
    decompressName "app.log.gz".toList ≠ "app.log.gz".toList ∧
    compressName (decompressName "app.log.gz".toList) ≠
      "app.log.gz".toList :=
  claim_C10_distinct_paths "app.log.gz".toList (by decide)

end Logcleaner
